import Mathlib

/-!
Verification of the Deadbolt pipeline orchestration engine.

This file gives a shallow embedding of the core orchestration code
(`main/core/runner.py`, `main/utils/state.py`, `main/utils/worklists.py`,
`main/utils/resume.py`, `main/utils/targets.py`, `main/core/metadata.py`,
`main/tools/nuclei/parser.py`, `main/core/tool_registry.py`) and proves or
refutes the specified properties of the engine against it.

Modelling conventions:
* Files are modelled by their parsed content: plain-text worklists are
  `List String` (their nonempty written lines), normalized JSON snapshots are
  `List Finding`, `state.json` is a `RunState` value.  A file of size zero
  corresponds to the empty line list.
* External tool executions (container launches) and output parsers are
  oracles: functions from input content to `Except String` results, where
  `.error msg` models a raised Python exception with message `msg`.
* Wall-clock timestamps and the live Rich status table never influence
  control flow; timestamps are modelled as `0` and the status table only by
  the ordered event trace its update hooks would receive.
-/

/-! ## A concrete environment

A fixed runtime-binding table and targets file used by the concrete
(counter)example runs below: `subfinder` discovers one asset, `nuclei`
reports one vulnerability finding, every other tool succeeds with no
findings. -/

/-- Artifact kinds, from `AssetType = Literal["targets","assets","paths","findings"]`
in `main/core/tool_registry.py`. -/
inductive Kind where
  | targets
  | assets
  | paths
  | findings
deriving DecidableEq, Repr

/-- String form of a kind, as it appears in file names and persisted state. -/
def Kind.str : Kind → String
  | .targets => "targets"
  | .assets => "assets"
  | .paths => "paths"
  | .findings => "findings"

/-- Execution phases, from `PhaseType = Literal["discovery","enumeration","vulnerability"]`. -/
inductive Phase where
  | discovery
  | enumeration
  | vulnerability
deriving DecidableEq, Repr

/-- String form of a phase, as it appears in worklist file names. -/
def Phase.str : Phase → String
  | .discovery => "discovery"
  | .enumeration => "enumeration"
  | .vulnerability => "vulnerability"

/-- Source `PHASE_ORDER = ["discovery", "enumeration", "vulnerability"]` (runner.py:26). -/
def PHASE_ORDER : List Phase := [.discovery, .enumeration, .vulnerability]

/-- Source `CONSUME_RANK = ... targets 0, assets 1, paths 2, findings 3 ...` (runner.py:29). -/
def CONSUME_RANK : Kind → Nat
  | .targets => 0
  | .assets => 1
  | .paths => 2
  | .findings => 3

/-- The canonical normalized finding record, from `main/schema/normalize.py`.
`metadata : Dict[str, Any]` is modelled as a string-valued association list and
`timestamp : datetime` as a `Nat`; neither influences any engine decision. -/
structure Finding where
  asset : String
  title : String
  tool : String
  kind : String
  status_code : Option Nat := none
  technologies : List String := []
  webserver : Option String := none
  cdn : Option Bool := none
  cdn_name : Option String := none
  severity : Option String := none
  template_id : Option String := none
  occurrences : Nat := 1
  timestamp : Nat := 0
  evidence_path : String := ""
  metadata : List (String × String) := []
deriving DecidableEq, Repr

/-- Source `ToolSpec` from `main/core/tool_registry.py`. -/
structure ToolSpec where
  name : String
  image : String
  phase : Phase
  consumes : Kind
  produces : Kind
  produces_severity : Bool
  severity_gated : Bool
  parallel : Bool
deriving DecidableEq, Repr

/-- Source `TOOL_REGISTRY` from `main/core/tool_registry.py`, in dictionary insertion
order (Python dictionaries preserve it, and `TOOL_REGISTRY.values()` yields it). -/
def TOOL_REGISTRY : List ToolSpec := [
  ⟨"subfinder", "deadbolt-subfinder", .discovery, .targets, .assets, false, false, true⟩,
  ⟨"dnsx", "deadbolt-dnsx", .discovery, .assets, .assets, false, false, false⟩,
  ⟨"httpx", "deadbolt-httpx", .discovery, .assets, .assets, false, false, true⟩,
  ⟨"gau", "deadbolt-gau", .enumeration, .assets, .paths, false, false, false⟩,
  ⟨"waybackurls", "deadbolt-waybackurls", .enumeration, .assets, .paths, false, false, false⟩,
  ⟨"katana", "deadbolt-katana", .enumeration, .assets, .paths, false, false, false⟩,
  ⟨"hakrawler", "deadbolt-hakrawler", .enumeration, .assets, .paths, false, false, false⟩,
  ⟨"ffuf", "deadbolt-ffuf", .enumeration, .assets, .paths, false, false, true⟩,
  ⟨"httpx_paths", "deadbolt-httpx", .enumeration, .paths, .paths, false, false, true⟩,
  ⟨"paramspider", "deadbolt-paramspider", .enumeration, .assets, .paths, false, false, false⟩,
  ⟨"graphql-cop", "deadbolt-graphql-cop", .enumeration, .assets, .paths, false, false, false⟩,
  ⟨"nuclei", "deadbolt-nuclei", .vulnerability, .assets, .findings, true, true, true⟩]

/-- Python-dict lookup `m.get(k)` over an insertion-ordered association list. -/
def aget {κ α : Type} [DecidableEq κ] : List (κ × α) → κ → Option α
  | [], _ => none
  | (k', v') :: rest, k => if k' = k then some v' else aget rest k

/-- Python-dict assignment `m[k] = v`: replaces in place if the key exists,
otherwise appends (insertion order preserved). -/
def aset {κ α : Type} [DecidableEq κ] : List (κ × α) → κ → α → List (κ × α)
  | [], k, v => [(k, v)]
  | (k', v') :: rest, k, v =>
      if k' = k then (k, v) :: rest else (k', v') :: aset rest k v

/-- Python `str.strip()`: remove leading and trailing whitespace.  (Defined
character-wise so that all definitions evaluate by kernel reduction.) -/
def pyStrip (s : String) : String :=
  ⟨((s.data.dropWhile Char.isWhitespace).reverse.dropWhile Char.isWhitespace).reverse⟩

/-- Does the second list begin with the first? -/
def leads : List Char → List Char → Bool
  | [], _ => true
  | _ :: _, [] => false
  | a :: as, b :: bs => a = b ∧ leads as bs

/-- Python `str.startswith(pre)`. -/
def strLeads (pre s : String) : Bool := leads pre.data s.data

/-- ASCII lower-casing of one character (as `str.lower()` does on ASCII hosts). -/
def lowerChar (c : Char) : Char :=
  if 'A' ≤ c ∧ c ≤ 'Z' then Char.ofNat (c.toNat + 32) else c

/-- Python `str.lower()` (ASCII range). -/
def pyLower (s : String) : String := ⟨s.data.map lowerChar⟩

/-- The characters before the first occurrence of `c`. -/
def upToChar (c : Char) : List Char → List Char
  | [] => []
  | d :: ds => if d = c then [] else d :: upToChar c ds

/-- The characters after the last occurrence of `c` (the whole list when `c`
does not occur), i.e. Python `s.split(c)[-1]`. -/
def afterLastChar (c : Char) (cs : List Char) : List Char :=
  (upToChar c cs.reverse).reverse

/-- The suffix after the first occurrence of `sep` (`none` when `sep` does not
occur), i.e. Python `s.split(sep, 1)[1]` when it exists. -/
def splitFirstSeq (sep : List Char) : List Char → Option (List Char)
  | [] => if sep = [] then some [] else none
  | c :: cs =>
      if leads sep (c :: cs) then some ((c :: cs).drop sep.length)
      else splitFirstSeq sep cs

/-- Source `_write_or_merge_worklist_txt` from `main/utils/worklists.py`, as a pure
function from the current file content (`none` when the file does not exist)
to the new content. Returns `none` exactly when the file still does not exist
afterwards: the source only opens the file in append mode when there are new
items, so an absent file with no new items stays absent. -/
def merge_step (acc : List String × List String) (x : String) :
    List String × List String :=
  let x := pyStrip x
  if x ≠ "" ∧ x ∉ acc.2 then (acc.1 ++ [x], acc.2 ++ [x]) else acc

def write_or_merge_worklist (file : Option (List String)) (items : List String) :
    Option (List String) :=
  let existing := ((file.getD []).map pyStrip).filter (fun l => l ≠ "")
  let news := (items.foldl merge_step ([], existing)).1
  if news = [] then file else some ((file.getD []) ++ news)

/-- Source `_findings_to_work_items` from `main/utils/worklists.py`. -/
def findings_to_work_items (output_type : Kind) (findings : List Finding) :
    List String :=
  match output_type with
  | .assets => findings.map (·.asset)
  | .paths => findings.map (·.asset)
  | _ => []

/-- Model of `urlparse(t).hostname` (used by `_extract_domains_from_targets`):
for inputs of the shape `scheme://host...`, `//host...` the lowercased host
(with userinfo and port stripped); for bare strings without a netloc, `None`. -/
def urlparse_hostname (t : String) : Option String :=
  let cs := t.data
  let netloc? : Option (List Char) :=
    if leads "//".data cs then some (cs.drop 2)
    else splitFirstSeq "://".data cs
  match netloc? with
  | none => none
  | some rest =>
    let netloc := upToChar '/' rest
    let hostport := afterLastChar '@' netloc
    let host := upToChar ':' hostport
    if host = [] then none else some ⟨host.map lowerChar⟩

/-- Python `str.rstrip(".")`. -/
def rstripDots (s : String) : String := ⟨(s.data.reverse.dropWhile (· = '.')).reverse⟩

/-- Source `_extract_domains_from_targets` from `main/utils/targets.py`, over the
lines of the targets file. -/
def extract_domains_from_targets (lines : List String) : List String :=
  (lines.foldl
    (fun (acc : List String × List String) line =>
      let t := pyStrip line
      if t = "" then acc
      else
        let host :=
          match urlparse_hostname t with
          | some h => h
          | none => t
        let host := rstripDots (pyLower (pyStrip host))
        if host ≠ "" ∧ host ∉ acc.2 then (acc.1 ++ [host], acc.2 ++ [host])
        else acc)
    ([], [])).1

/-- Model of `hash_file` (`main/utils/state.py`): the SHA-256 digest is a
deterministic, collision-free function of the file's content, modelled by the
content itself (an injective stand-in for the digest string). -/
def hash_file (lines : List String) : String := String.intercalate "\n" lines

/-- One tool's persisted execution record, as written into `state.json` by
`run_scan` (runner.py:257-264 and 298-307). -/
structure ToolState where
  status : String
  version : Option String := none
  input_type : String := ""
  input_hash : String := ""
  output_type : Option String := none
  output_file : Option String := none
  started_at : Nat := 0
  finished_at : Nat := 0
deriving DecidableEq, Repr

/-- The persisted run state (`load_state` default: `schema 1, tools empty`). -/
structure RunState where
  schema : Nat := 1
  tools : List (String × ToolState) := []
deriving DecidableEq, Repr

/-- Source `meta.json` content, from `write_metadata` in `main/core/metadata.py`.
`tools` maps a tool name to its `(image, version)` pair. -/
structure Meta where
  run_id : String
  domain : String
  started_at : Nat := 0
  finished_at : Nat := 0
  targets_file : String
  deadbolt_version : String := "0.1.0"
  tools : List (String × String × String)
  errors : List (String × String)
deriving DecidableEq, Repr

/-- The contents of one run directory.  `work` is `none` while the `work/`
directory does not exist; its entries are file names inside `work/` mapped to
their lines.  `normalized` and `raw` entries are keyed by their full path
relative to the run root.  `state_json`/`meta` are `none` while absent. -/
structure RunDir where
  state_json : Option RunState := none
  work : Option (List (String × List String)) := none
  normalized : List (String × List Finding) := []
  raw : List (String × List String) := []
  meta : Option Meta := none
deriving DecidableEq, Repr

/-- A fresh run directory right after `base.mkdir` (runner.py:92). -/
def emptyRunDir : RunDir := {}

/-- Read the lines of a worklist file given its path relative to the run root
(the orchestrator only ever reads text artifacts below `work/`). -/
def readWorkLines (dir : RunDir) (path : String) : Option (List String) :=
  if strLeads "work/" path then aget (dir.work.getD []) (path.drop 5) else none

/-- Source `Path.exists()` relative to the run root. -/
def fileExists (dir : RunDir) (path : String) : Bool :=
  (readWorkLines dir path).isSome
    ∨ (aget dir.normalized path).isSome
    ∨ (aget dir.raw path).isSome
    ∨ (path = "state.json" ∧ dir.state_json.isSome)
    ∨ (path = "meta.json" ∧ dir.meta.isSome)

/-- Write a file below `work/` (`name` is the file name inside `work/`). -/
def writeWork (dir : RunDir) (name : String) (lines : List String) : RunDir :=
  { dir with work := some (aset (dir.work.getD []) name lines) }

/-- Source `_write_or_merge_worklist_txt(work_dir / name, items)` acting on the run
directory. -/
def mergeWorkFile (dir : RunDir) (name : String) (items : List String) : RunDir :=
  match write_or_merge_worklist (aget (dir.work.getD []) name) items with
  | none => dir
  | some newLines => writeWork dir name newLines

/-- Write a normalized JSON snapshot (keyed by full path). -/
def writeNormalized (dir : RunDir) (path : String) (fs : List Finding) : RunDir :=
  { dir with normalized := aset dir.normalized path fs }

/-- Write a raw tool output file (keyed by full path). -/
def writeRaw (dir : RunDir) (path : String) (lines : List String) : RunDir :=
  { dir with raw := aset dir.raw path lines }

/-- The per-tool lifecycle notifications `run_scan` sends to the live status
table, in call order: `tool_started`, `tool_skipped`, `tool_failed`,
`tool_finished` (`main/core/execution_table.py`).  The table itself is purely
observational; the trace records the orchestrator's behaviour. -/
inductive Event where
  | started (tool : String)
  | skipped (tool : String)
  | failed (tool : String)
  | finished (tool : String) (findings : Nat)
deriving DecidableEq, Repr

/-- The tool a lifecycle event belongs to. -/
def Event.tool : Event → String
  | .started n => n
  | .skipped n => n
  | .failed n => n
  | .finished n _ => n

/-- Whether an event is a terminal state report (`skipped`/`failed`/`done`)
for the named tool. -/
def isTerminal (name : String) : Event → Bool
  | .started _ => false
  | .skipped n => n = name
  | .failed n => n = name
  | .finished n _ => n = name

/-- The in-memory artifact registry (runner.py:145-150): current authoritative
path for each kind, relative to the run root, or `none`. -/
structure Artifacts where
  targets : Option String := none
  assets : Option String := none
  paths : Option String := none
  findings : Option String := none
deriving DecidableEq, Repr

def Artifacts.get (a : Artifacts) : Kind → Option String
  | .targets => a.targets
  | .assets => a.assets
  | .paths => a.paths
  | .findings => a.findings

def Artifacts.set (a : Artifacts) : Kind → String → Artifacts
  | .targets, p => { a with targets := some p }
  | .assets, p => { a with assets := some p }
  | .paths, p => { a with paths := some p }
  | .findings, p => { a with findings := some p }

/-- Source `ToolRuntime` from `main/core/tool_runtime.py`.  `runner` models the
external tool execution: from the input file's lines to the raw output file's
lines it writes (`.error` models a raised exception).  `parser` maps that raw
output to findings; `postprocess` is the optional in-place mutation. -/
structure ToolRuntime where
  runner : List String → Except String (List String)
  parser : List String → Except String (List Finding)
  output_name : String
  postprocess : Option (List Finding → List Finding) := none
  raw_subdir : Option String := none

/-- The ambient context of one `run_scan` invocation: the runtime binding
table (`TOOL_RUNTIMES`, loaded from the runtime registry module), the version
strings the concurrent best-effort detection has published to the display
table (purely advisory), and the timestamp-derived fresh run id. -/
structure Ctx where
  runtimes : String → Option ToolRuntime
  versions : String → Option String := fun _ => none
  freshRunId : String := "19700101_000000"

/-- Source `run_tool` from runner.py:35-60.  Returns the status events emitted so
far (only `tool_started`), the run directory (raw output may have been
written), and the findings or the raised exception. -/
def run_tool (ctx : Ctx) (spec : ToolSpec) (inputLines : List String)
    (dir : RunDir) : List Event × RunDir × Except String (List Finding) :=
  match ctx.runtimes spec.name with
  | none =>
      ([.started spec.name], dir, .error ("No runtime registered for " ++ spec.name))
  | some rt =>
    let rawName := rt.raw_subdir.getD spec.name
    let outPath := "raw/" ++ rawName ++ "/" ++ rt.output_name
    match rt.runner inputLines with
    | .error e => ([.started spec.name], dir, .error e)
    | .ok rawOut =>
      let dir := writeRaw dir outPath rawOut
      match rt.parser rawOut with
      | .error e => ([.started spec.name], dir, .error e)
      | .ok fs =>
        let fs := match rt.postprocess with
          | none => fs
          | some pp => pp fs
        ([.started spec.name], dir, .ok fs)

/-- The mutable state of the orchestration loop in `run_scan`. -/
structure LoopState where
  dir : RunDir
  stateMem : RunState
  artifacts : Artifacts
  errors : List (String × String) := []
  all_findings : List Finding := []
  trace : List Event := []
deriving Repr

/-- One iteration of the per-tool loop (runner.py:219-311). -/
def toolStep (ctx : Ctx) (phase : Phase) (s : LoopState) (t : ToolSpec) :
    LoopState :=
  match (s.artifacts.get t.consumes).bind (readWorkLines s.dir) with
  | none => { s with trace := s.trace ++ [.skipped t.name] }
  | some lines =>
    if lines.isEmpty then { s with trace := s.trace ++ [.skipped t.name] }
    else
      let input_hash := hash_file lines
      let skipDone : Option ToolState :=
        match aget s.stateMem.tools t.name with
        | some st =>
            if st.status = "done" ∧ st.input_hash = input_hash then some st
            else none
        | none => none
      match skipDone with
      | some st =>
        let s := { s with trace := s.trace ++ [.skipped t.name] }
        let out_rel := st.output_file.getD ""
        if out_rel ≠ "" ∧ fileExists s.dir out_rel then
          { s with artifacts := s.artifacts.set t.produces out_rel }
        else s
      | none =>
        let res := run_tool ctx t lines s.dir
        match res.2.2 with
        | .error e =>
          let rec' : ToolState :=
            { status := "failed", version := ctx.versions t.name,
              input_type := t.consumes.str, input_hash := input_hash }
          let mem := { s.stateMem with tools := aset s.stateMem.tools t.name rec' }
          { s with
            dir := { res.2.1 with state_json := some mem },
            stateMem := mem,
            errors := aset s.errors t.name e,
            trace := s.trace ++ res.1 ++ [.failed t.name] }
        | .ok fs =>
          let dir₁ := writeNormalized res.2.1
            ("normalized/" ++ t.name ++ "." ++ t.produces.str ++ ".json") fs
          let artifact_name :=
            if t.name = "httpx_paths" then
              phase.str ++ "." ++ t.produces.str ++ ".enriched.txt"
            else phase.str ++ "." ++ t.produces.str ++ ".txt"
          let out_txt := "work/" ++ artifact_name
          let items := findings_to_work_items t.produces fs
          let dir₂ :=
            if fileExists dir₁ out_txt then dir₁ else writeWork dir₁ artifact_name []
          let dir₃ := if items ≠ [] then mergeWorkFile dir₂ artifact_name items else dir₂
          let rec' : ToolState :=
            { status := "done", version := ctx.versions t.name,
              input_type := t.consumes.str, input_hash := input_hash,
              output_type := some t.produces.str, output_file := some out_txt }
          let mem := { s.stateMem with tools := aset s.stateMem.tools t.name rec' }
          { s with
            dir := { dir₃ with state_json := some mem },
            stateMem := mem,
            artifacts := s.artifacts.set t.produces out_txt,
            all_findings :=
              if t.produces = .findings then s.all_findings ++ fs else s.all_findings,
            trace := s.trace ++ res.1 ++ [.finished t.name fs.length] }

/-- Phase-boundary artifact seeding (runner.py:195-217). -/
def phaseSeed (targetsLines : List String) (p : Phase) (s : LoopState) :
    LoopState :=
  match p with
  | .discovery => s
  | .enumeration =>
    match readWorkLines s.dir "work/discovery.assets.txt" with
    | some ls =>
      if ¬ls.isEmpty then
        { s with artifacts := s.artifacts.set .assets "work/discovery.assets.txt" }
      else
        let dir' := mergeWorkFile s.dir "enumeration.assets.fallback.txt"
          (extract_domains_from_targets targetsLines)
        { s with dir := dir',
                 artifacts := s.artifacts.set .assets "work/enumeration.assets.fallback.txt" }
    | none =>
      let dir' := mergeWorkFile s.dir "enumeration.assets.fallback.txt"
        (extract_domains_from_targets targetsLines)
      { s with dir := dir',
               artifacts := s.artifacts.set .assets "work/enumeration.assets.fallback.txt" }
  | .vulnerability =>
    let s :=
      if s.artifacts.assets = none ∧ fileExists s.dir "work/enumeration.assets.txt" then
        { s with artifacts := s.artifacts.set .assets "work/enumeration.assets.txt" }
      else s
    if s.artifacts.paths = none ∧ fileExists s.dir "work/enumeration.paths.txt" then
      { s with artifacts := s.artifacts.set .paths "work/enumeration.paths.txt" }
    else s

/-- Source `phase_tools.sort(key=lambda t: CONSUME_RANK[t.consumes])`: Python's sort
is stable and the key takes values in 0..3, so the result is the
concatenation of the rank buckets in catalog order. -/
def sortByConsumeRank (ts : List ToolSpec) : List ToolSpec :=
  (List.range 4).flatMap (fun r => ts.filter (fun t => CONSUME_RANK t.consumes = r))

/-- The tools of one phase, in execution order (runner.py:188-189). -/
def phaseTools (p : Phase) : List ToolSpec :=
  sortByConsumeRank (TOOL_REGISTRY.filter (fun t => t.phase = p))

/-- One phase of the orchestration loop: boundary seeding, then the tools in
rank order. -/
def runPhase (ctx : Ctx) (targetsLines : List String) (p : Phase)
    (s : LoopState) : LoopState :=
  (phaseTools p).foldl (toolStep ctx p) (phaseSeed targetsLines p s)

/-- The whole orchestration loop (runner.py:187-311). -/
def runLoopAll (ctx : Ctx) (targetsLines : List String) (s : LoopState) :
    LoopState :=
  PHASE_ORDER.foldl (fun s p => runPhase ctx targetsLines p s) s

/-- Source `write_metadata` from `main/core/metadata.py`.  `domain` is a required
keyword-only parameter; omitting it at a call site makes Python raise
`TypeError` before the body runs, modelled by the `Option` first argument. -/
def write_metadata (domain? : Option String) (run_id : String)
    (targets_file : String) (tools : List (String × String × String))
    (errors : List (String × String)) : Except String Meta :=
  match domain? with
  | none =>
      .error "TypeError: write_metadata() missing 1 required keyword-only argument: domain"
  | some d =>
      .ok { run_id := run_id, domain := d, targets_file := targets_file,
            tools := tools, errors := errors }

/-- The `--resume-from` argument: the relevant properties of the path the
operator passed (after `resolve()`), and the run directory it denotes. -/
structure ResumeArg where
  isDir : Bool
  name : String
  parentName : String
  contents : RunDir

/-- The observable outcome of `run_scan`: the uncaught exception if one
escaped (`none` on normal return), the final run directory contents, the
accumulated per-tool error map, and the status-event trace. -/
structure ScanResult where
  uncaught : Option String
  dir : RunDir
  errors : List (String × String)
  trace : List Event
deriving Repr

/-- Resume artifact seeding (runner.py:152-181): for each artifact kind, the
first existing candidate worklist under the resume `work/` directory is
registered; if no candidate of any kind exists, the run aborts
("Resume directory contains no usable work artifacts", modelled by `none`).
`dir` is the run directory after the current targets worklist merge, `arts`
the registry initialized at runner.py:145-150. -/
def resume_seed_artifacts (dir : RunDir) (arts : Artifacts) : Option Artifacts :=
  let fT := fileExists dir "work/targets_domains.txt"
  let fA1 := fileExists dir "work/enumeration.assets.txt"
  let fA2 := fileExists dir "work/discovery.assets.txt"
  let fP := fileExists dir "work/enumeration.paths.txt"
  if ¬(fT ∨ fA1 ∨ fA2 ∨ fP) then none
  else
    let arts := if fT then { arts with targets := some "work/targets_domains.txt" } else arts
    let arts :=
      if fA1 then { arts with assets := some "work/enumeration.assets.txt" }
      else if fA2 then { arts with assets := some "work/discovery.assets.txt" }
      else arts
    let arts := if fP then { arts with paths := some "work/enumeration.paths.txt" } else arts
    some arts

/-- The tail of `run_scan` after the phase loop (runner.py:316-341): write
the aggregate `normalized/findings.json` from the in-memory `all_findings`,
then call `write_metadata` — which the source invokes without the required
keyword-only `domain` argument (runner.py:325-339), modelled by the `none`
first argument. -/
def run_scan_finalize (ctx : Ctx) (targetsPath run_id : String)
    (s1 : LoopState) : ScanResult :=
  let dir₁ := writeNormalized s1.dir "normalized/findings.json" s1.all_findings
  let toolsMeta := TOOL_REGISTRY.map
    (fun sp => (sp.name, sp.image, (ctx.versions sp.name).getD "unknown"))
  match write_metadata none run_id targetsPath toolsMeta s1.errors with
  | .error e => { uncaught := some e, dir := dir₁, errors := s1.errors, trace := s1.trace }
  | .ok m =>
      { uncaught := none, dir := { dir₁ with meta := some m },
        errors := s1.errors, trace := s1.trace }

/-- The body of `run_scan` after the base directory is resolved
(runner.py:92-341): directory setup, state load, targets worklist, resume
artifact seeding, the phase loop, and the finalization writes. -/
def run_scan_body (ctx : Ctx) (targetsPath : String) (targetsLines : List String)
    (base : RunDir) (run_id : String) (isResume : Bool) : ScanResult :=
  let dir : RunDir := { base with work := some (base.work.getD []) }
  let mem := dir.state_json.getD {}
  let domains := extract_domains_from_targets targetsLines
  let dir := mergeWorkFile dir "targets_domains.txt" domains
  let arts : Artifacts := { targets := some "work/targets_domains.txt" }
  let seeded : Option Artifacts :=
    if isResume then resume_seed_artifacts dir arts else some arts
  match seeded with
  | none =>
      { uncaught := some "Resume directory contains no usable work artifacts",
        dir := dir, errors := [], trace := [] }
  | some arts =>
      run_scan_finalize ctx targetsPath run_id
        (runLoopAll ctx targetsLines { dir := dir, stateMem := mem, artifacts := arts })

/-- Source `run_scan` from runner.py:67-341.  `scopeOk` is the outcome of the
pre-flight scope gate `validate_targets` (scope semantics are external to the
engine); `targetsLines` is the content of the targets file at `targetsPath`.
The resume pre-flight checks (runner.py:78-89) and the `outputs/run_*` shape
check of `_resolve_run_base` (`main/utils/resume.py`) run in source order,
all before any tool executes. -/
def run_scan (ctx : Ctx) (scopeOk : Bool) (targetsPath : String)
    (targetsLines : List String) (resume? : Option ResumeArg) : ScanResult :=
  if ¬scopeOk then
    { uncaught := some "ScopeError: targets outside scope",
      dir := emptyRunDir, errors := [], trace := [] }
  else
    match resume? with
    | some r =>
      if ¬r.isDir then
        { uncaught := some "--resume-from must be an existing run directory",
          dir := r.contents, errors := [], trace := [] }
      else if r.contents.state_json.isNone then
        { uncaught := some "Invalid run directory: missing state.json",
          dir := r.contents, errors := [], trace := [] }
      else if r.contents.work.isNone then
        { uncaught := some "Invalid run directory: missing work",
          dir := r.contents, errors := [], trace := [] }
      else if ¬(strLeads "run_" r.name ∧ r.parentName = "outputs") then
        { uncaught := some "Resume path must be an outputs/run_xxx/ directory",
          dir := r.contents, errors := [], trace := [] }
      else run_scan_body ctx targetsPath targetsLines r.contents r.name true
    | none =>
      run_scan_body ctx targetsPath targetsLines emptyRunDir
        ("run_" ++ ctx.freshRunId) false

/-- One parsed JSONL record of nuclei output, from the fields
`parse_nuclei` (`main/tools/nuclei/parser.py`) reads: `host`, `matched`,
`url`, `template-id`, `info.name`, `info.severity`.  A field is `none` when
the key is absent from the JSON object. -/
structure NucleiRecord where
  host : Option String := none
  matched : Option String := none
  url : Option String := none
  template_id : Option String := none
  info_name : Option String := none
  info_severity : Option String := none
deriving DecidableEq, Repr

/-- Python `a or b` over optional strings: `a` unless it is `None` or the
empty string (falsy), else `b`. -/
def pyOr (a b : Option String) : Option String :=
  match a with
  | some s => if s ≠ "" then some s else b
  | none => b

/-- Python truthiness of an optional string. -/
def truthy : Option String → Bool
  | none => false
  | some s => s ≠ ""

/-- Source `SEVERITY_ORDER.get(s, 0)` from `parse_nuclei`. -/
def SEVERITY_ORDER : String → Nat
  | "info" => 0
  | "low" => 1
  | "medium" => 2
  | "high" => 3
  | "critical" => 4
  | _ => 0

/-- Source `existing.severity or "info"` from `parse_nuclei`. -/
def orInfoStr : Option String → String
  | none => "info"
  | some s => if s = "" then "info" else s

/-- The de-duplication key `(asset, template_id)` of a record, or `none` when
the record is dropped (`if not asset or not template_id: continue`). -/
def nuclei_key (r : NucleiRecord) : Option (String × String) :=
  let asset? := pyOr (pyOr r.host r.matched) r.url
  if truthy asset? ∧ truthy r.template_id then
    some (asset?.getD "", r.template_id.getD "")
  else none

/-- The duplicate-handling branch of the `parse_nuclei` loop: increment
`occurrences` and retain the highest observed severity (updating the title
with it). -/
def nuclei_update (title severity : String) (f : Finding) : Finding :=
  let f := { f with occurrences := f.occurrences + 1 }
  if SEVERITY_ORDER severity > SEVERITY_ORDER (orInfoStr f.severity) then
    { f with severity := some severity, title := title }
  else f

/-- The Finding created for a first-seen `(asset, template_id)` pair. -/
def nuclei_new (rawPath title severity : String) (k : String × String) : Finding :=
  { asset := k.1, title := title, tool := "nuclei", kind := "finding",
    severity := some severity, template_id := some k.2, occurrences := 1,
    evidence_path := rawPath }

/-- One line of the `parse_nuclei` loop acting on the insertion-ordered
`findings` dictionary. -/
def parse_nuclei_step (rawPath : String)
    (m : List ((String × String) × Finding)) (r : NucleiRecord) :
    List ((String × String) × Finding) :=
  match nuclei_key r with
  | none => m
  | some k =>
    let title := r.info_name.getD "Nuclei Finding"
    let severity := r.info_severity.getD "info"
    match aget m k with
    | none => m ++ [(k, nuclei_new rawPath title severity k)]
    | some f => aset m k (nuclei_update title severity f)

/-- Source `parse_nuclei` from `main/tools/nuclei/parser.py`, over the parsed JSONL
records of the raw file at `rawPath`: de-duplicates by `(asset, template_id)`,
counts occurrences, retains the highest observed severity, and returns the
dictionary's values in insertion order. -/
def parse_nuclei (rawPath : String) (records : List NucleiRecord) :
    List Finding :=
  (records.foldl (parse_nuclei_step rawPath) []).map (·.2)

/-- The asset finding the `subfinder` oracle parses. -/
def subFinding : Finding :=
  { asset := "a.ex.com", title := "Subdomain", tool := "subfinder",
    kind := "asset", evidence_path := "raw/subfinder/out.txt" }

/-- The vulnerability finding the `nuclei` oracle parses. -/
def vulnFinding : Finding :=
  { asset := "a.ex.com", title := "CVE", tool := "nuclei", kind := "finding",
    severity := some "high", template_id := some "t1",
    evidence_path := "raw/nuclei/out.txt" }

/-- A runtime binding whose execution writes fixed raw output and whose
parser returns fixed findings. -/
def constRuntime (out : List String) (fs : List Finding) : ToolRuntime :=
  { runner := fun _ => .ok out, parser := fun _ => .ok fs,
    output_name := "out.txt" }

/-- The demo runtime-binding table. -/
def demoCtx : Ctx :=
  { runtimes := fun n =>
      if n = "subfinder" then some (constRuntime ["a.ex.com"] [subFinding])
      else if n = "nuclei" then some (constRuntime ["hit"] [vulnFinding])
      else if n ∈ ["dnsx", "httpx", "gau", "waybackurls", "katana",
                   "hakrawler", "ffuf", "httpx_paths", "paramspider",
                   "graphql-cop"] then
        some (constRuntime ["raw"] [])
      else none }

/-- A fresh first run over a one-domain targets file. -/
def demoRun1 : ScanResult := run_scan demoCtx true "targets.txt" ["ex.com"] none

/-- The second, resumed run over the unchanged run directory produced by
`demoRun1`, with the unchanged target set. -/
def demoRun2 : ScanResult :=
  run_scan demoCtx true "targets.txt" ["ex.com"]
    (some { isDir := true, name := "run_20260101_000000",
            parentName := "outputs", contents := demoRun1.dir })

/-- The demo table with the `graphql-cop` execution raising an exception. -/
def failCtx : Ctx :=
  { demoCtx with
    runtimes := fun n =>
      if n = "graphql-cop" then
        some { runner := fun _ => .error "boom", parser := fun _ => .ok [],
               output_name := "out.txt" }
      else demoCtx.runtimes n }

/-- A fresh run in which exactly the tool `graphql-cop` raises. -/
def failRun : ScanResult := run_scan failCtx true "targets.txt" ["ex.com"] none

/-- The demo table with no runtime binding registered for `subfinder`. -/
def noBindCtx : Ctx :=
  { demoCtx with
    runtimes := fun n => if n = "subfinder" then none else demoCtx.runtimes n }

/-- A fresh run in which the catalog entry `subfinder` has no runtime binding. -/
def noBindRun : ScanResult := run_scan noBindCtx true "targets.txt" ["ex.com"] none

/-- The claim's ordering notion: every terminal (`skipped`/`failed`/`done`)
report for tool `a` precedes every `started` report for tool `b` in the
trace, i.e. `a` completes before `b` starts. -/
def completes_before (a b : String) (tr : List Event) : Prop :=
  ∀ (i j : Nat) (ea eb : Event), tr[i]? = some ea → isTerminal a ea = true →
    tr[j]? = some eb → eb = Event.started b → i < j

/-- Witness for `c5_skip_on_missing_input` at a concrete input. -/
def c5state : LoopState := { dir := emptyRunDir, stateMem := {}, artifacts := {} }

/-- A run directory used to witness the hash-based skip. -/
def c3dir : RunDir :=
  { state_json := some {},
    work := some [("in.txt", ["x"]), ("o.txt", ["y"])] }

/-- The persisted `done` record used to witness the hash-based skip. -/
def c3st : ToolState :=
  { status := "done", input_type := "targets", input_hash := hash_file ["x"],
    output_file := some "work/o.txt" }

/-- The loop state used to witness the hash-based skip. -/
def c3state : LoopState :=
  { dir := c3dir, stateMem := { tools := [("subfinder", c3st)] },
    artifacts := { targets := some "work/in.txt" } }

/-- All events of tool `a` occur strictly before all events of tool `b`. -/
def allBefore (a b : String) (tr : List Event) : Prop :=
  ∃ u v, tr = u ++ v ∧ (∀ e ∈ u, Event.tool e ≠ b) ∧ (∀ e ∈ v, Event.tool e ≠ a)

/-- Loop state used to witness the missing-binding behaviour. -/
def c2state : LoopState :=
  { dir := { work := some [("in.txt", ["x"])] }, stateMem := {},
    artifacts := { targets := some "work/in.txt" } }

/-- The list-of-characters core of `pyStrip`. -/
def trimChars (l : List Char) : List Char :=
  ((l.dropWhile Char.isWhitespace).reverse.dropWhile Char.isWhitespace).reverse

/-- The spec's notion of the appended part of a worklist merge: the
previously-unseen nonempty entries of `xs`, each once, in first-seen order,
given the set of already-present entries `seen`. -/
def firstSeenNew (seen : List String) : List String → List String
  | [] => []
  | x :: rest =>
      if x ≠ "" ∧ x ∉ seen then x :: firstSeenNew (seen ++ [x]) rest
      else firstSeenNew seen rest

/-- The de-duplication key of a produced nuclei Finding. -/
def nucleiKeyOf (f : Finding) : String × String := (f.asset, f.template_id.getD "")

/-- The input records contributing to key `k`. -/
def nucleiRecordsFor (records : List NucleiRecord) (k : String × String) :
    List NucleiRecord :=
  records.filter (fun r => nuclei_key r = some k)

/-- The highest severity rank among the records of key `k` (0 when none). -/
def nucleiMaxRank (records : List NucleiRecord) (k : String × String) : Nat :=
  ((nucleiRecordsFor records k).map
    (fun r => SEVERITY_ORDER (r.info_severity.getD "info"))).foldl max 0

/-- The invariant relating the parser's insertion-ordered dictionary to the
records already processed. -/
def parseInv (m : List ((String × String) × Finding))
    (done : List NucleiRecord) : Prop :=
  (m.map Prod.fst).Nodup
  ∧ ∀ k : String × String,
      (aget m k = none → nucleiRecordsFor done k = [])
      ∧ ∀ f, aget m k = some f →
          nucleiKeyOf f = k
          ∧ f.occurrences = (nucleiRecordsFor done k).length
          ∧ SEVERITY_ORDER (orInfoStr f.severity) = nucleiMaxRank done k

theorem aget_aset_self {κ α : Type} [DecidableEq κ] (m : List (κ × α)) (k : κ) (v : α) :
    aget (aset m k v) k = some v := by
  induction m with
  | nil => simp [aget, aset]
  | cons hd tl ih =>
    by_cases h : hd.1 = k
    · simp [aget, aset, h]
    · simp [aget, aset, h, ih]

theorem aget_aset_ne {κ α : Type} [DecidableEq κ] (m : List (κ × α)) (k k' : κ) (v : α)
    (h : k' ≠ k) : aget (aset m k v) k' = aget m k' := by
  induction m with
  | nil =>
    simp only [aget, aset]
    rw [if_neg (fun hh => h hh.symm)]
  | cons hd tl ih =>
    by_cases hk : hd.1 = k
    · simp only [aget, aset, if_pos hk]
      have hne : hd.1 ≠ k' := by rw [hk]; exact fun hh => h hh.symm
      rw [if_neg (fun hh => h hh.symm), if_neg hne]
    · by_cases hk' : hd.1 = k'
      · simp only [aget, aset, if_neg hk, if_pos hk']
      · simp only [aget, aset, if_neg hk, if_neg hk', ih]

/-- C1.  The claim fails on the code: in a run where the second, resumed
invocation over the unchanged run directory reports every tool `skipped`,
`run_scan` still rewrites `normalized/findings.json` from the in-memory
`all_findings` list — which only ever collects findings of tools executed in
the current invocation (runner.py:310-311, 319-322) — so the aggregate
finding set after the second run is empty and differs from the first run's. -/
theorem c1_second_run_empties_findings :
    demoRun2.trace =
      [.skipped "subfinder", .skipped "dnsx", .skipped "httpx", .skipped "gau",
       .skipped "waybackurls", .skipped "katana", .skipped "hakrawler",
       .skipped "ffuf", .skipped "paramspider", .skipped "graphql-cop",
       .skipped "httpx_paths", .skipped "nuclei"]
    ∧ aget demoRun1.dir.normalized "normalized/findings.json" = some [vulnFinding]
    ∧ aget demoRun2.dir.normalized "normalized/findings.json" = some [] := by
  decide

/-- C2.  Counterexample: with no runtime binding registered for the catalog
entry `subfinder`, the engine performs no pre-flight validation; the tool is
started, the `RuntimeError` raised inside `run_tool` (runner.py:44-46) is
caught by the per-tool handler (runner.py:253-266), the missing binding is
recorded as a per-tool failure in the errors map, and the run continues
through every remaining tool. -/
theorem c2_missing_binding_is_per_tool_failure :
    noBindRun.errors = [("subfinder", "No runtime registered for subfinder")]
    ∧ noBindRun.trace =
      [.started "subfinder", .failed "subfinder", .skipped "dnsx",
       .skipped "httpx", .started "gau", .finished "gau" 0,
       .started "waybackurls", .finished "waybackurls" 0, .started "katana",
       .finished "katana" 0, .started "hakrawler", .finished "hakrawler" 0,
       .started "ffuf", .finished "ffuf" 0, .started "paramspider",
       .finished "paramspider" 0, .started "graphql-cop",
       .finished "graphql-cop" 0, .skipped "httpx_paths", .started "nuclei",
       .finished "nuclei" 1]
    ∧ aget (noBindRun.dir.state_json.getD {}).tools "subfinder" =
        some { status := "failed", input_type := "targets",
               input_hash := "ex.com" } := by
  decide

/-- C4.  Counterexample: `httpx` produces `assets` and `dnsx` consumes
`assets`, both in the `discovery` phase, yet in a run executing both, `dnsx`
starts (trace index 2) before `httpx` completes (trace index 5): the sort
key is the rank of the *consumed* kind only (runner.py:189), and both tools
consume `assets`, so they stay in catalog order. -/
theorem c4_producer_not_before_consumer :
    (∃ A ∈ TOOL_REGISTRY, ∃ B ∈ TOOL_REGISTRY,
      A.name = "httpx" ∧ B.name = "dnsx" ∧ A.phase = B.phase ∧
      A.produces = .assets ∧ B.consumes = .assets)
    ∧ ¬completes_before "httpx" "dnsx" demoRun1.trace := by
  constructor
  · decide
  · intro h
    have h5 : demoRun1.trace[5]? = some (Event.finished "httpx" 0) := by decide
    have h2 : demoRun1.trace[2]? = some (Event.started "dnsx") := by decide
    have h52 := h 5 2 (Event.finished "httpx" 0) (Event.started "dnsx") h5
      (by decide) h2 rfl
    omega

/-- C6.  In a run where exactly `graphql-cop` raises (message `boom`): its
state is recorded as `failed` with the message's error entry appearing
exactly once, the state file records the failure, and all subsequent tools
of the same and later phases still run — but the run metadata file
`meta.json` is never written, because the final `write_metadata` call omits
the required keyword-only `domain` argument and raises `TypeError`, so no
errors map ever reaches the metadata file. -/
theorem c6_failure_isolated_but_meta_never_written :
    failRun.trace =
      [.started "subfinder", .finished "subfinder" 1, .started "dnsx",
       .finished "dnsx" 0, .started "httpx", .finished "httpx" 0,
       .started "gau", .finished "gau" 0, .started "waybackurls",
       .finished "waybackurls" 0, .started "katana", .finished "katana" 0,
       .started "hakrawler", .finished "hakrawler" 0, .started "ffuf",
       .finished "ffuf" 0, .started "paramspider", .finished "paramspider" 0,
       .started "graphql-cop", .failed "graphql-cop", .skipped "httpx_paths",
       .started "nuclei", .finished "nuclei" 1]
    ∧ aget (failRun.dir.state_json.getD {}).tools "graphql-cop" =
        some { status := "failed", input_type := "assets",
               input_hash := "a.ex.com" }
    ∧ failRun.errors = [("graphql-cop", "boom")]
    ∧ failRun.errors.countP (fun e => e.1 = "graphql-cop") = 1
    ∧ failRun.dir.meta = none := by
  decide

/-- C7.  In a run where one tool failed and no fatal pre-flight error
occurred, `run_scan` does not complete successfully: the aggregate
`findings.json` is written and the per-tool failure is held in the in-memory
errors map, but the final `write_metadata` call (runner.py:325-339) omits
the required keyword-only `domain` parameter of
`main/core/metadata.py:write_metadata`, so every run ends in an uncaught
`TypeError` and `meta.json` (with its errors map) is never produced. -/
theorem c7_run_scan_ends_in_type_error :
    failRun.errors = [("graphql-cop", "boom")]
    ∧ aget failRun.dir.normalized "normalized/findings.json" = some [vulnFinding]
    ∧ failRun.dir.meta = none
    ∧ failRun.uncaught =
        some "TypeError: write_metadata() missing 1 required keyword-only argument: domain" := by
  decide

theorem Artifacts.get_set_self (a : Artifacts) (k : Kind) (v : String) :
    (a.set k v).get k = some v := by
  cases k <;> rfl

/-- Source `run_tool` always emits exactly the `tool_started` notification,
whatever the outcome. -/
theorem run_tool_events (ctx : Ctx) (t : ToolSpec) (lines : List String)
    (dir : RunDir) : (run_tool ctx t lines dir).1 = [Event.started t.name] := by
  unfold run_tool
  split
  · rfl
  · split
    · rfl
    · split
      · rfl
      · rfl

/-- C5.  Skip-on-missing-input: a tool whose resolved input artifact is
absent (no registered path, or a path that does not exist) or is an empty
file is marked `skipped` and nothing else happens: its runtime is never
invoked, no failure is recorded, no state is written, and the loop proceeds
to the next tool (runner.py:219-224). -/
theorem c5_skip_on_missing_input (ctx : Ctx) (p : Phase) (t : ToolSpec)
    (s : LoopState)
    (h : s.artifacts.get t.consumes = none
      ∨ (∃ pth, s.artifacts.get t.consumes = some pth
          ∧ readWorkLines s.dir pth = none)
      ∨ (∃ pth, s.artifacts.get t.consumes = some pth
          ∧ readWorkLines s.dir pth = some [])) :
    toolStep ctx p s t = { s with trace := s.trace ++ [Event.skipped t.name] } := by
  rcases h with h | ⟨pth, h₁, h₂⟩ | ⟨pth, h₁, h₂⟩
  · unfold toolStep
    rw [h]
    rfl
  · unfold toolStep
    rw [h₁, Option.some_bind, h₂]
  · unfold toolStep
    rw [h₁, Option.some_bind, h₂]
    rfl

theorem c5_skip_on_missing_input_witness :
    toolStep demoCtx .discovery c5state
        ⟨"subfinder", "deadbolt-subfinder", .discovery, .targets, .assets,
          false, false, true⟩ =
      { c5state with trace := c5state.trace ++ [Event.skipped "subfinder"] } :=
  c5_skip_on_missing_input demoCtx .discovery _ c5state (Or.inl (by decide))

/-- In every branch of the per-tool loop, the persisted state file is either
left untouched or rewritten with this tool's entry set to a `done` or
`failed` record: `save_state` is only called in the two outcome branches
(runner.py:265, 308); a skip never writes state. -/
theorem toolStep_persist_only_done_failed (ctx : Ctx) (p : Phase)
    (s : LoopState) (t : ToolSpec)
    (hch : (toolStep ctx p s t).dir.state_json ≠ s.dir.state_json) :
    ∃ r, aget (toolStep ctx p s t).stateMem.tools t.name = some r
      ∧ (r.status = "done" ∨ r.status = "failed")
      ∧ (toolStep ctx p s t).dir.state_json = some (toolStep ctx p s t).stateMem := by
  simp only [toolStep] at *
  revert hch
  repeat' split
  all_goals intro hch
  all_goals
    first
      | exact absurd rfl hch
      | exact ⟨_, aget_aset_self _ _ _, Or.inl rfl, rfl⟩
      | exact ⟨_, aget_aset_self _ _ _, Or.inr rfl, rfl⟩

/-- C3.  Hash-based skip (runner.py:226-242): with a nonempty resolved input
and a persisted record for the tool whose status is `done`, (a) an identical
input hash marks the tool `skipped` without invoking its runtime — nothing
is written (no raw output, no state, the prior `done` record is untouched,
no failure is recorded) — and a still-existing recorded `output_file` is
re-registered in the artifact store for the tool's produced kind; (b) a
differing content hash makes the tool execute (its runtime is started).
Together with `toolStep_persist_only_done_failed` this also gives the
parenthetical: only `done`/`failed` outcomes are ever persisted. -/
theorem c3_hash_based_skip (ctx : Ctx) (p : Phase) (t : ToolSpec)
    (s : LoopState) (pth : String) (lines : List String) (st : ToolState)
    (hart : s.artifacts.get t.consumes = some pth)
    (hread : readWorkLines s.dir pth = some lines)
    (hne : lines ≠ [])
    (hst : aget s.stateMem.tools t.name = some st)
    (hdone : st.status = "done") :
    (st.input_hash = hash_file lines →
      (toolStep ctx p s t).trace = s.trace ++ [Event.skipped t.name]
      ∧ (toolStep ctx p s t).dir = s.dir
      ∧ (toolStep ctx p s t).stateMem = s.stateMem
      ∧ (toolStep ctx p s t).errors = s.errors
      ∧ (∀ rel, st.output_file = some rel → rel ≠ "" →
          fileExists s.dir rel = true →
          (toolStep ctx p s t).artifacts.get t.produces = some rel))
    ∧ (st.input_hash ≠ hash_file lines →
        ∃ evs, (toolStep ctx p s t).trace = s.trace ++ Event.started t.name :: evs) := by
  have hempty : lines.isEmpty = false := by
    cases lines with
    | nil => exact absurd rfl hne
    | cons a as => rfl
  constructor
  · intro hhash
    by_cases hc : st.output_file.getD "" ≠ ""
        ∧ fileExists s.dir (st.output_file.getD "") = true
    · have hstep : toolStep ctx p s t =
          { s with artifacts := s.artifacts.set t.produces (st.output_file.getD ""),
                   trace := s.trace ++ [Event.skipped t.name] } := by
        simp only [toolStep, hart, Option.some_bind, hread, hempty,
          Bool.false_eq_true, if_false, hst, hdone, hhash, eq_self_iff_true,
          and_self, if_true]
        rw [if_pos hc]
      rw [hstep]
      refine ⟨rfl, rfl, rfl, rfl, ?_⟩
      intro rel hrel hnz hex
      have hgd : st.output_file.getD "" = rel := by rw [hrel]; rfl
      show (s.artifacts.set t.produces (st.output_file.getD "")).get t.produces
        = some rel
      rw [hgd]
      exact Artifacts.get_set_self _ _ _
    · have hstep : toolStep ctx p s t =
          { s with trace := s.trace ++ [Event.skipped t.name] } := by
        simp only [toolStep, hart, Option.some_bind, hread, hempty,
          Bool.false_eq_true, if_false, hst, hdone, hhash, eq_self_iff_true,
          and_self, if_true]
        rw [if_neg hc]
      rw [hstep]
      refine ⟨rfl, rfl, rfl, rfl, ?_⟩
      intro rel hrel hnz hex
      exfalso
      apply hc
      have hgd : st.output_file.getD "" = rel := by rw [hrel]; rfl
      rw [hgd]
      exact ⟨hnz, hex⟩
  · intro hhash
    have hcond : ¬(st.status = "done" ∧ st.input_hash = hash_file lines) :=
      fun hh => hhash hh.2
    rcases hres : (run_tool ctx t lines s.dir).2.2 with e | fs
    · refine ⟨[Event.failed t.name], ?_⟩
      have hstep : (toolStep ctx p s t).trace
          = s.trace ++ [Event.started t.name] ++ [Event.failed t.name] := by
        simp only [toolStep, hart, Option.some_bind, hread, hempty,
          Bool.false_eq_true, if_false, hst, if_neg hcond, hres,
          run_tool_events]
      rw [hstep]
      simp
    · refine ⟨[Event.finished t.name fs.length], ?_⟩
      have hstep : (toolStep ctx p s t).trace
          = s.trace ++ [Event.started t.name] ++ [Event.finished t.name fs.length] := by
        simp only [toolStep, hart, Option.some_bind, hread, hempty,
          Bool.false_eq_true, if_false, hst, if_neg hcond, hres,
          run_tool_events]
      rw [hstep]
      simp

theorem c3_hash_based_skip_witness :
    (toolStep demoCtx .discovery c3state
        ⟨"subfinder", "deadbolt-subfinder", .discovery, .targets, .assets,
          false, false, true⟩).trace
      = c3state.trace ++ [Event.skipped "subfinder"]
    ∧ (toolStep demoCtx .discovery c3state
        ⟨"subfinder", "deadbolt-subfinder", .discovery, .targets, .assets,
          false, false, true⟩).artifacts.get .assets = some "work/o.txt" := by
  have h := (c3_hash_based_skip demoCtx .discovery
    ⟨"subfinder", "deadbolt-subfinder", .discovery, .targets, .assets,
      false, false, true⟩ c3state "work/in.txt" ["x"] c3st
    (by decide) (by decide) (by decide) (by decide) (by decide)).1 (by decide)
  exact ⟨h.1, h.2.2.2.2 "work/o.txt" rfl (by decide) (by decide)⟩

/-- C10.  Resume pre-flight gate (runner.py:78-91, `main/utils/resume.py`):
when `--resume-from` names a path that is not an existing directory, or a
directory lacking `state.json` or `work/`, or one that is not an
`outputs/run_*` directory, `run_scan` raises a fatal error and no tool
lifecycle event is ever emitted — no tool executes. -/
theorem c10_resume_preflight_gate (ctx : Ctx) (scopeOk : Bool)
    (targetsPath : String) (targetsLines : List String) (r : ResumeArg)
    (h : r.isDir = false
      ∨ r.contents.state_json = none
      ∨ r.contents.work = none
      ∨ ¬(strLeads "run_" r.name = true ∧ r.parentName = "outputs")) :
    (∃ msg, (run_scan ctx scopeOk targetsPath targetsLines (some r)).uncaught
        = some msg)
    ∧ (run_scan ctx scopeOk targetsPath targetsLines (some r)).trace = [] := by
  unfold run_scan
  split
  · exact ⟨⟨_, rfl⟩, rfl⟩
  · simp only []
    split
    · exact ⟨⟨_, rfl⟩, rfl⟩
    · next hdir =>
      split
      · exact ⟨⟨_, rfl⟩, rfl⟩
      · next hstate =>
        split
        · exact ⟨⟨_, rfl⟩, rfl⟩
        · next hwork =>
          split
          · exact ⟨⟨_, rfl⟩, rfl⟩
          · next hshape =>
            exfalso
            rcases h with h | h | h | h
            · exact hdir (by rw [h]; exact Bool.false_ne_true)
            · exact hstate (by rw [h]; exact Option.isNone_none ▸ rfl)
            · exact hwork (by rw [h]; exact Option.isNone_none ▸ rfl)
            · exact hshape (fun hc => h hc)

theorem c10_resume_preflight_gate_witness :
    (∃ msg, (run_scan demoCtx true "targets.txt" ["ex.com"]
        (some { isDir := false, name := "x", parentName := "y",
                contents := emptyRunDir })).uncaught = some msg)
    ∧ (run_scan demoCtx true "targets.txt" ["ex.com"]
        (some { isDir := false, name := "x", parentName := "y",
                contents := emptyRunDir })).trace = [] :=
  c10_resume_preflight_gate demoCtx true "targets.txt" ["ex.com"]
    { isDir := false, name := "x", parentName := "y", contents := emptyRunDir }
    (Or.inl rfl)

/-- Each iteration of the per-tool loop appends a block of events belonging
to that tool alone, containing exactly one terminal report: `[skipped]`,
`[started, failed]` or `[started, finished]`. -/
theorem toolStep_trace_shape (ctx : Ctx) (p : Phase) (s : LoopState)
    (t : ToolSpec) :
    ∃ blk, (toolStep ctx p s t).trace = s.trace ++ blk
      ∧ (∀ e ∈ blk, Event.tool e = t.name)
      ∧ blk.countP (isTerminal t.name) = 1 := by
  rcases hbind : (s.artifacts.get t.consumes).bind (readWorkLines s.dir) with _ | lines
  · exact ⟨[Event.skipped t.name], by simp [toolStep, hbind],
      by simp [Event.tool], by simp [List.countP_cons, isTerminal]⟩
  · cases hemp : lines.isEmpty with
    | true =>
      exact ⟨[Event.skipped t.name], by simp [toolStep, hbind, hemp],
        by simp [Event.tool], by simp [List.countP_cons, isTerminal]⟩
    | false =>
      rcases hsd : (match aget s.stateMem.tools t.name with
          | some st =>
              if st.status = "done" ∧ st.input_hash = hash_file lines then some st
              else none
          | none => none : Option ToolState) with _ | st
      · rcases hres : (run_tool ctx t lines s.dir).2.2 with e | fs
        · exact ⟨[Event.started t.name, Event.failed t.name],
            by simp [toolStep, hbind, hemp, hsd, hres, run_tool_events],
            by simp [Event.tool], by simp [List.countP_cons, isTerminal]⟩
        · exact ⟨[Event.started t.name, Event.finished t.name fs.length],
            by simp [toolStep, hbind, hemp, hsd, hres, run_tool_events],
            by simp [Event.tool], by simp [List.countP_cons, isTerminal]⟩
      · refine ⟨[Event.skipped t.name], ?_, by simp [Event.tool],
          by simp [List.countP_cons, isTerminal]⟩
        simp only [toolStep, hbind, Option.some_bind, hemp, Bool.false_eq_true,
          if_false, hsd]
        split <;> rfl

/-- Folding the per-tool loop over a list of tools appends events whose
tools all come from the list, with at least one terminal report per listed
tool. -/
theorem foldl_toolStep_trace (ctx : Ctx) (p : Phase) (ts : List ToolSpec)
    (s : LoopState) :
    ∃ tb, (List.foldl (toolStep ctx p) s ts).trace = s.trace ++ tb
      ∧ (∀ e ∈ tb, ∃ t ∈ ts, Event.tool e = t.name)
      ∧ (∀ t' ∈ ts, 1 ≤ tb.countP (isTerminal t'.name)) := by
  induction ts generalizing s with
  | nil => exact ⟨[], by simp, by simp, by simp⟩
  | cons t ts ih =>
    obtain ⟨blk, hblk, hname, hcnt⟩ := toolStep_trace_shape ctx p s t
    obtain ⟨tb, htb, hnames, hcnts⟩ := ih (toolStep ctx p s t)
    refine ⟨blk ++ tb, ?_, ?_, ?_⟩
    · rw [List.foldl_cons, htb, hblk, List.append_assoc]
    · intro e he
      rcases List.mem_append.1 he with he | he
      · exact ⟨t, List.mem_cons_self t ts, hname e he⟩
      · obtain ⟨t', ht', hn⟩ := hnames e he
        exact ⟨t', List.mem_cons_of_mem _ ht', hn⟩
    · intro t' ht'
      rw [List.countP_append]
      rcases List.mem_cons.1 ht' with rfl | ht'
      · omega
      · have := hcnts t' ht'
        omega

/-- Phase-boundary seeding never emits events. -/
theorem phaseSeed_trace (targetsLines : List String) (p : Phase)
    (s : LoopState) : (phaseSeed targetsLines p s).trace = s.trace := by
  cases p <;> simp only [phaseSeed] <;> repeat' split
  all_goals rfl

/-- One phase appends events whose tools all come from that phase's
schedule, with at least one terminal report per scheduled tool. -/
theorem runPhase_trace (ctx : Ctx) (targetsLines : List String) (p : Phase)
    (s : LoopState) :
    ∃ tb, (runPhase ctx targetsLines p s).trace = s.trace ++ tb
      ∧ (∀ e ∈ tb, ∃ t ∈ phaseTools p, Event.tool e = t.name)
      ∧ (∀ t' ∈ phaseTools p, 1 ≤ tb.countP (isTerminal t'.name)) := by
  obtain ⟨tb, h1, h2, h3⟩ :=
    foldl_toolStep_trace ctx p (phaseTools p) (phaseSeed targetsLines p s)
  rw [phaseSeed_trace] at h1
  exact ⟨tb, h1, h2, h3⟩

/-- A terminal report belongs to the tool it names. -/
theorem isTerminal_tool (name : String) (e : Event)
    (h : isTerminal name e = true) : Event.tool e = name := by
  cases e <;> simp [isTerminal] at h ⊢ <;> exact h

theorem allBefore.completes (a b : String) (tr : List Event)
    (h : allBefore a b tr) : completes_before a b tr := by
  obtain ⟨u, v, rfl, hu, hv⟩ := h
  intro i j ea eb hi hterm hj hstart
  have hta : Event.tool ea = a := isTerminal_tool a ea hterm
  have htb : Event.tool eb = b := by rw [hstart]; rfl
  by_cases hiu : i < u.length
  · by_cases hju : j < u.length
    · exfalso
      have hmem : eb ∈ u :=
        List.getElem?_mem (by rw [← List.getElem?_append_left hju]; exact hj)
      exact hu eb hmem htb
    · omega
  · exfalso
    have hle : u.length ≤ i := Nat.le_of_not_lt hiu
    have hmem : ea ∈ v :=
      List.getElem?_mem (by rw [← List.getElem?_append_right hle]; exact hi)
    exact hv ea hmem hta

/-- Catalog tool names are pairwise distinct (dictionary keys). -/
theorem tool_registry_names_nodup : (TOOL_REGISTRY.map (·.name)).Nodup := by decide

/-- Two catalog entries with the same name are the same entry. -/
theorem registry_name_inj : ∀ t₁ ∈ TOOL_REGISTRY, ∀ t₂ ∈ TOOL_REGISTRY,
    t₁.name = t₂.name → t₁ = t₂ :=
  List.inj_on_of_nodup_map tool_registry_names_nodup

/-- Tools scheduled for a phase are catalog entries of that phase. -/
theorem mem_phaseTools (p : Phase) (t : ToolSpec) (h : t ∈ phaseTools p) :
    t ∈ TOOL_REGISTRY ∧ t.phase = p := by
  unfold phaseTools sortByConsumeRank at h
  obtain ⟨r, _, ht⟩ := List.mem_flatMap.1 h
  have h1 := List.mem_filter.1 ht
  have h2 := List.mem_filter.1 h1.1
  exact ⟨h2.1, by simpa using h2.2⟩

/-- The rank-stable sort splits a phase's schedule at any rank boundary:
all tools consuming a kind of lower rank come first. -/
theorem phaseTools_rank_split (p : Phase) (rB : Nat) (h4 : rB ≤ 4) :
    ∃ L R, phaseTools p = L ++ R
      ∧ (∀ t ∈ L, CONSUME_RANK t.consumes < rB)
      ∧ (∀ t ∈ R, rB ≤ CONSUME_RANK t.consumes) := by
  refine ⟨(List.range rB).flatMap
      (fun r => (TOOL_REGISTRY.filter (fun t => t.phase = p)).filter
        (fun t => CONSUME_RANK t.consumes = r)),
    ((List.range (4 - rB)).map (rB + ·)).flatMap
      (fun r => (TOOL_REGISTRY.filter (fun t => t.phase = p)).filter
        (fun t => CONSUME_RANK t.consumes = r)), ?_, ?_, ?_⟩
  · have h44 : List.range 4 = List.range rB ++ (List.range (4 - rB)).map (rB + ·) := by
      conv_lhs => rw [show (4 : Nat) = rB + (4 - rB) by omega]
      exact List.range_add rB (4 - rB)
    unfold phaseTools sortByConsumeRank
    rw [h44, List.flatMap_append]
  · intro t ht
    obtain ⟨r, hr, htf⟩ := List.mem_flatMap.1 ht
    have hrr : CONSUME_RANK t.consumes = r := by
      simpa using (List.mem_filter.1 htf).2
    have := List.mem_range.1 hr
    omega
  · intro t ht
    obtain ⟨r, hr, htf⟩ := List.mem_flatMap.1 ht
    obtain ⟨k, _, rfl⟩ := List.mem_map.1 hr
    have hrr : CONSUME_RANK t.consumes = rB + k := by
      simpa using (List.mem_filter.1 htf).2
    omega

/-- Membership in a rank split implies catalog membership in that phase. -/
theorem mem_of_split_left (p : Phase) (L R : List ToolSpec)
    (hsplit : phaseTools p = L ++ R) (t : ToolSpec) (h : t ∈ L) :
    t ∈ TOOL_REGISTRY ∧ t.phase = p :=
  mem_phaseTools p t (hsplit ▸ List.mem_append_left R h)

theorem mem_of_split_right (p : Phase) (L R : List ToolSpec)
    (hsplit : phaseTools p = L ++ R) (t : ToolSpec) (h : t ∈ R) :
    t ∈ TOOL_REGISTRY ∧ t.phase = p :=
  mem_phaseTools p t (hsplit ▸ List.mem_append_right L h)

/-- One phase's trace, split at a schedule boundary `phaseTools p = L ++ R`:
the `L` part's events come entirely before the `R` part's. -/
theorem runPhase_split_trace (ctx : Ctx) (targetsLines : List String)
    (p : Phase) (s : LoopState) (L R : List ToolSpec)
    (hsplit : phaseTools p = L ++ R) :
    ∃ tbL tbR, (runPhase ctx targetsLines p s).trace = (s.trace ++ tbL) ++ tbR
      ∧ (∀ e ∈ tbL, ∃ t ∈ L, Event.tool e = t.name)
      ∧ (∀ e ∈ tbR, ∃ t ∈ R, Event.tool e = t.name) := by
  unfold runPhase
  rw [hsplit, List.foldl_append]
  obtain ⟨tbL, h1, h2, _⟩ :=
    foldl_toolStep_trace ctx p L (phaseSeed targetsLines p s)
  obtain ⟨tbR, h3, h4, _⟩ := foldl_toolStep_trace ctx p R
    (List.foldl (toolStep ctx p) (phaseSeed targetsLines p s) L)
  rw [phaseSeed_trace] at h1
  rw [h1] at h3
  exact ⟨tbL, tbR, h3, h2, h4⟩

/-- The whole loop's trace, split at a schedule boundary of the phase `p`:
events before the boundary come from other phases or from `L`, events after
it from other phases or from `R`. -/
theorem runLoop_phase_split (ctx : Ctx) (targetsLines : List String)
    (s : LoopState) (p : Phase) (L R : List ToolSpec)
    (hsplit : phaseTools p = L ++ R) :
    ∃ u v, (runLoopAll ctx targetsLines s).trace = u ++ v
      ∧ (∀ e ∈ u, e ∈ s.trace
          ∨ ∃ t, ((t ∈ TOOL_REGISTRY ∧ t.phase ≠ p) ∨ t ∈ L) ∧ Event.tool e = t.name)
      ∧ (∀ e ∈ v,
          ∃ t, ((t ∈ TOOL_REGISTRY ∧ t.phase ≠ p) ∨ t ∈ R) ∧ Event.tool e = t.name) := by
  have hloop : runLoopAll ctx targetsLines s
      = runPhase ctx targetsLines .vulnerability
          (runPhase ctx targetsLines .enumeration
            (runPhase ctx targetsLines .discovery s)) := rfl
  cases p with
  | discovery =>
    obtain ⟨tbL, tbR, hD, hLn, hRn⟩ :=
      runPhase_split_trace ctx targetsLines .discovery s L R hsplit
    obtain ⟨tbE, hE, hEn, _⟩ := runPhase_trace ctx targetsLines .enumeration
      (runPhase ctx targetsLines .discovery s)
    obtain ⟨tbV, hV, hVn, _⟩ := runPhase_trace ctx targetsLines .vulnerability
      (runPhase ctx targetsLines .enumeration
        (runPhase ctx targetsLines .discovery s))
    refine ⟨s.trace ++ tbL, (tbR ++ tbE) ++ tbV, ?_, ?_, ?_⟩
    · rw [hloop, hV, hE, hD]
      try simp [List.append_assoc]
    · intro e he
      rcases List.mem_append.1 he with he | he
      · exact Or.inl he
      · obtain ⟨t, ht, hn⟩ := hLn e he
        exact Or.inr ⟨t, Or.inr ht, hn⟩
    · intro e he
      rcases List.mem_append.1 he with he | he
      · rcases List.mem_append.1 he with he | he
        · obtain ⟨t, ht, hn⟩ := hRn e he
          exact ⟨t, Or.inr ht, hn⟩
        · obtain ⟨t, ht, hn⟩ := hEn e he
          obtain ⟨hreg, hph⟩ := mem_phaseTools _ t ht
          exact ⟨t, Or.inl ⟨hreg, by rw [hph]; decide⟩, hn⟩
      · obtain ⟨t, ht, hn⟩ := hVn e he
        obtain ⟨hreg, hph⟩ := mem_phaseTools _ t ht
        exact ⟨t, Or.inl ⟨hreg, by rw [hph]; decide⟩, hn⟩
  | enumeration =>
    obtain ⟨tbD, hD, hDn, _⟩ := runPhase_trace ctx targetsLines .discovery s
    obtain ⟨tbL, tbR, hE, hLn, hRn⟩ := runPhase_split_trace ctx targetsLines
      .enumeration (runPhase ctx targetsLines .discovery s) L R hsplit
    obtain ⟨tbV, hV, hVn, _⟩ := runPhase_trace ctx targetsLines .vulnerability
      (runPhase ctx targetsLines .enumeration
        (runPhase ctx targetsLines .discovery s))
    refine ⟨(s.trace ++ tbD) ++ tbL, tbR ++ tbV, ?_, ?_, ?_⟩
    · rw [hloop, hV, hE, hD]
      try simp [List.append_assoc]
    · intro e he
      rcases List.mem_append.1 he with he | he
      · rcases List.mem_append.1 he with he | he
        · exact Or.inl he
        · obtain ⟨t, ht, hn⟩ := hDn e he
          obtain ⟨hreg, hph⟩ := mem_phaseTools _ t ht
          exact Or.inr ⟨t, Or.inl ⟨hreg, by rw [hph]; decide⟩, hn⟩
      · obtain ⟨t, ht, hn⟩ := hLn e he
        exact Or.inr ⟨t, Or.inr ht, hn⟩
    · intro e he
      rcases List.mem_append.1 he with he | he
      · obtain ⟨t, ht, hn⟩ := hRn e he
        exact ⟨t, Or.inr ht, hn⟩
      · obtain ⟨t, ht, hn⟩ := hVn e he
        obtain ⟨hreg, hph⟩ := mem_phaseTools _ t ht
        exact ⟨t, Or.inl ⟨hreg, by rw [hph]; decide⟩, hn⟩
  | vulnerability =>
    obtain ⟨tbD, hD, hDn, _⟩ := runPhase_trace ctx targetsLines .discovery s
    obtain ⟨tbE, hE, hEn, _⟩ := runPhase_trace ctx targetsLines .enumeration
      (runPhase ctx targetsLines .discovery s)
    obtain ⟨tbL, tbR, hV, hLn, hRn⟩ := runPhase_split_trace ctx targetsLines
      .vulnerability (runPhase ctx targetsLines .enumeration
        (runPhase ctx targetsLines .discovery s)) L R hsplit
    refine ⟨((s.trace ++ tbD) ++ tbE) ++ tbL, tbR, ?_, ?_, ?_⟩
    · rw [hloop, hV, hE, hD]
      try simp [List.append_assoc]
    · intro e he
      rcases List.mem_append.1 he with he | he
      · rcases List.mem_append.1 he with he | he
        · rcases List.mem_append.1 he with he | he
          · exact Or.inl he
          · obtain ⟨t, ht, hn⟩ := hDn e he
            obtain ⟨hreg, hph⟩ := mem_phaseTools _ t ht
            exact Or.inr ⟨t, Or.inl ⟨hreg, by rw [hph]; decide⟩, hn⟩
        · obtain ⟨t, ht, hn⟩ := hEn e he
          obtain ⟨hreg, hph⟩ := mem_phaseTools _ t ht
          exact Or.inr ⟨t, Or.inl ⟨hreg, by rw [hph]; decide⟩, hn⟩
      · obtain ⟨t, ht, hn⟩ := hLn e he
        exact Or.inr ⟨t, Or.inr ht, hn⟩
    · intro e he
      obtain ⟨t, ht, hn⟩ := hRn e he
      exact ⟨t, Or.inr ht, hn⟩

/-- Source `run_scan` either stops at a pre-flight error with an empty trace, or
its trace is the phase loop's trace started from an initial loop state with
an empty trace. -/
theorem run_scan_trace_cases (ctx : Ctx) (scopeOk : Bool)
    (targetsPath : String) (targetsLines : List String)
    (resume? : Option ResumeArg) :
    (run_scan ctx scopeOk targetsPath targetsLines resume?).trace = []
    ∨ ∃ s0 : LoopState,
        (run_scan ctx scopeOk targetsPath targetsLines resume?).trace
          = (runLoopAll ctx targetsLines s0).trace
        ∧ s0.trace = [] := by
  simp only [run_scan, run_scan_body]
  repeat' split
  all_goals
    first
      | exact Or.inl rfl
      | exact Or.inr ⟨_, rfl, rfl⟩

/-- Ranks of consumed kinds are at most 3. -/
theorem consume_rank_le (k : Kind) : CONSUME_RANK k ≤ 3 := by
  cases k <;> simp [CONSUME_RANK]

/-- C4 (amended).  Phases execute strictly in the declared order, one tool at
a time, and within a phase tools run in nondecreasing consume-rank order:
for any two same-phase catalog tools `A` and `B` such that the rank of the
kind `A` consumes is strictly below the rank of the kind `B` consumes —
in particular any producer of `B`'s input kind that consumes a strictly
lower-ranked kind — `A` completes before `B` starts in every run.  (Tools of
equal consume rank run in catalog order instead, so a producer listed after
a same-rank consumer does not complete first; see the counterexample.) -/
theorem c4_amended_rank_ordering (ctx : Ctx) (scopeOk : Bool)
    (targetsPath : String) (targetsLines : List String)
    (resume? : Option ResumeArg) (A B : ToolSpec)
    (hA : A ∈ TOOL_REGISTRY) (hB : B ∈ TOOL_REGISTRY)
    (hphase : A.phase = B.phase)
    (hrank : CONSUME_RANK A.consumes < CONSUME_RANK B.consumes) :
    completes_before A.name B.name
      (run_scan ctx scopeOk targetsPath targetsLines resume?).trace := by
  apply allBefore.completes
  rcases run_scan_trace_cases ctx scopeOk targetsPath targetsLines resume? with
    h | ⟨s0, htr, h0⟩
  · rw [h]
    exact ⟨[], [], rfl, by simp, by simp⟩
  · rw [htr]
    have h4 : CONSUME_RANK B.consumes ≤ 4 :=
      Nat.le_trans (consume_rank_le B.consumes) (by omega)
    obtain ⟨L, R, hsplit, hL, hR⟩ :=
      phaseTools_rank_split B.phase (CONSUME_RANK B.consumes) h4
    obtain ⟨u, v, htrace, hu, hv⟩ :=
      runLoop_phase_split ctx targetsLines s0 B.phase L R hsplit
    refine ⟨u, v, htrace, ?_, ?_⟩
    · intro e he
      rcases hu e he with hin | ⟨t, hcase, hname⟩
      · rw [h0] at hin
        exact absurd hin (List.not_mem_nil e)
      · rw [hname]
        rcases hcase with ⟨hreg, hph⟩ | hLmem
        · intro hn
          exact hph (congrArg ToolSpec.phase (registry_name_inj t hreg B hB hn))
        · intro hn
          have hreg := (mem_of_split_left B.phase L R hsplit t hLmem).1
          have htb : t = B := registry_name_inj t hreg B hB hn
          have hlt := hL t hLmem
          rw [htb] at hlt
          omega
    · intro e he
      obtain ⟨t, hcase, hname⟩ := hv e he
      rw [hname]
      rcases hcase with ⟨hreg, hph⟩ | hRmem
      · intro hn
        have : t = A := registry_name_inj t hreg A hA hn
        exact hph (this ▸ hphase)
      · intro hn
        have hreg := (mem_of_split_right B.phase L R hsplit t hRmem).1
        have hta : t = A := registry_name_inj t hreg A hA hn
        have := hR t hRmem
        rw [hta] at this
        omega

theorem c4_amended_rank_ordering_witness :
    completes_before "subfinder" "dnsx" demoRun1.trace :=
  c4_amended_rank_ordering demoCtx true "targets.txt" ["ex.com"] none
    ⟨"subfinder", "deadbolt-subfinder", .discovery, .targets, .assets,
      false, false, true⟩
    ⟨"dnsx", "deadbolt-dnsx", .discovery, .assets, .assets, false, false, false⟩
    (by decide) (by decide) rfl (by decide)

/-- C2 (amended).  The engine performs no pre-flight binding validation: a
catalog entry without a runtime binding is only detected when the tool is
reached with a usable input; `run_tool` then raises
`No runtime registered for <name>` (runner.py:44-46), which the per-tool
handler records as that tool's failure — in the errors map and in persisted
state — and the loop continues with the remaining tools, each still
receiving a terminal status report. -/
theorem c2_amended_missing_binding (ctx : Ctx) (p : Phase) (t : ToolSpec)
    (s : LoopState) (pth : String) (lines : List String)
    (hbind : ctx.runtimes t.name = none)
    (hart : s.artifacts.get t.consumes = some pth)
    (hread : readWorkLines s.dir pth = some lines)
    (hne : lines ≠ [])
    (hnoskip : ∀ st, aget s.stateMem.tools t.name = some st →
        ¬(st.status = "done" ∧ st.input_hash = hash_file lines)) :
    (toolStep ctx p s t).trace
        = s.trace ++ [Event.started t.name, Event.failed t.name]
    ∧ (toolStep ctx p s t).errors
        = aset s.errors t.name ("No runtime registered for " ++ t.name)
    ∧ aget (toolStep ctx p s t).stateMem.tools t.name
        = some { status := "failed", version := ctx.versions t.name,
                 input_type := t.consumes.str, input_hash := hash_file lines }
    ∧ (toolStep ctx p s t).dir.state_json = some (toolStep ctx p s t).stateMem
    ∧ (∀ rest : List ToolSpec,
        List.foldl (toolStep ctx p) s (t :: rest)
          = List.foldl (toolStep ctx p) (toolStep ctx p s t) rest)
    ∧ (∀ rest : List ToolSpec, ∀ t' ∈ rest,
        1 ≤ ((List.foldl (toolStep ctx p) s (t :: rest)).trace.countP
          (isTerminal t'.name))) := by
  have hempty : lines.isEmpty = false := by
    cases lines with
    | nil => exact absurd rfl hne
    | cons a as => rfl
  have hsd : (match aget s.stateMem.tools t.name with
      | some st =>
          if st.status = "done" ∧ st.input_hash = hash_file lines then some st
          else none
      | none => none : Option ToolState) = none := by
    rcases hag : aget s.stateMem.tools t.name with _ | st
    · rfl
    · simp [if_neg (hnoskip st hag)]
  have hres2 : (run_tool ctx t lines s.dir).2.2
      = Except.error ("No runtime registered for " ++ t.name) := by
    simp [run_tool, hbind]
  have hres1 : (run_tool ctx t lines s.dir).2.1 = s.dir := by
    simp [run_tool, hbind]
  refine ⟨?_, ?_, ?_, ?_, fun rest => rfl, ?_⟩
  · simp only [toolStep, hart, Option.some_bind, hread, hempty,
      Bool.false_eq_true, if_false, hsd, hres2, run_tool_events]
    simp
  · simp only [toolStep, hart, Option.some_bind, hread, hempty,
      Bool.false_eq_true, if_false, hsd, hres2]
  · simp only [toolStep, hart, Option.some_bind, hread, hempty,
      Bool.false_eq_true, if_false, hsd, hres2]
    exact aget_aset_self _ _ _
  · simp only [toolStep, hart, Option.some_bind, hread, hempty,
      Bool.false_eq_true, if_false, hsd, hres2, hres1]
  · intro rest t' ht'
    obtain ⟨tb, htb, _, hcnt⟩ := foldl_toolStep_trace ctx p (t :: rest) s
    rw [htb, List.countP_append]
    have := hcnt t' (List.mem_cons_of_mem t ht')
    omega

theorem c2_amended_missing_binding_witness :
    (toolStep noBindCtx .discovery c2state
        ⟨"subfinder", "deadbolt-subfinder", .discovery, .targets, .assets,
          false, false, true⟩).trace
      = c2state.trace ++ [Event.started "subfinder", Event.failed "subfinder"]
    ∧ (toolStep noBindCtx .discovery c2state
        ⟨"subfinder", "deadbolt-subfinder", .discovery, .targets, .assets,
          false, false, true⟩).errors
      = aset c2state.errors "subfinder"
          ("No runtime registered for " ++ "subfinder") := by
  have h := c2_amended_missing_binding noBindCtx .discovery
    ⟨"subfinder", "deadbolt-subfinder", .discovery, .targets, .assets,
      false, false, true⟩ c2state "work/in.txt" ["x"]
    rfl (by decide) (by decide) (by decide)
    (fun st hmem => Option.noConfusion hmem)
  exact ⟨h.1, h.2.1⟩

theorem pyStrip_eq_trimChars (s : String) : (pyStrip s).data = trimChars s.data := rfl

theorem dropWhile_head_false {p : Char → Bool} :
    ∀ (l : List Char) (c : Char) (m : List Char),
      l.dropWhile p = c :: m → p c = false := by
  intro l
  induction l with
  | nil => intro c m h; simp [List.dropWhile] at h
  | cons a as ih =>
    intro c m h
    by_cases ha : p a
    · rw [List.dropWhile_cons_of_pos ha] at h
      exact ih c m h
    · rw [List.dropWhile_cons_of_neg ha] at h
      cases h
      simpa using ha

theorem dropWhile_idem {p : Char → Bool} (l : List Char) :
    (l.dropWhile p).dropWhile p = l.dropWhile p := by
  rcases h : l.dropWhile p with _ | ⟨c, m⟩
  · rfl
  · rw [List.dropWhile_cons_of_neg]
    simp [dropWhile_head_false l c m h]

theorem dropWhile_append_last {p : Char → Bool} (c : Char) (hc : p c = false) :
    ∀ l : List Char, ∃ r, (l ++ [c]).dropWhile p = r ++ [c] := by
  intro l
  induction l with
  | nil => exact ⟨[], by simp [List.dropWhile, hc]⟩
  | cons a as ih =>
    by_cases ha : p a
    · obtain ⟨r, hr⟩ := ih
      refine ⟨r, ?_⟩
      rw [List.cons_append, List.dropWhile_cons_of_pos ha, hr]
    · exact ⟨a :: as, by rw [List.cons_append, List.dropWhile_cons_of_neg ha]⟩

theorem trimChars_idem (l : List Char) : trimChars (trimChars l) = trimChars l := by
  rcases hm : l.dropWhile Char.isWhitespace with _ | ⟨c, m'⟩
  · simp [trimChars, hm, List.dropWhile]
  · have hc : Char.isWhitespace c = false := dropWhile_head_false l c m' hm
    obtain ⟨r, hr⟩ := dropWhile_append_last c hc m'.reverse
    have hfl : trimChars l = c :: r.reverse := by
      simp [trimChars, hm, hr]
    rw [hfl]
    have h1 : (c :: r.reverse).dropWhile Char.isWhitespace = c :: r.reverse := by
      rw [List.dropWhile_cons_of_neg]
      simp [hc]
    have h2 : (c :: r.reverse).reverse = r ++ [c] := by simp
    have h3 : (r ++ [c]).dropWhile Char.isWhitespace = r ++ [c] := by
      conv_lhs => rw [← hr, dropWhile_idem, hr]
    unfold trimChars
    rw [h1, h2, h3]
    simp

/-- Python `strip()` is idempotent. -/
theorem pyStrip_idem (s : String) : pyStrip (pyStrip s) = pyStrip s := by
  apply String.ext
  rw [pyStrip_eq_trimChars, pyStrip_eq_trimChars, trimChars_idem]

/-- The merge fold computes exactly the first-seen-order new entries (and
extends its seen set by them). -/
theorem merge_fold_eq : ∀ (items news seen : List String),
    items.foldl merge_step (news, seen)
      = (news ++ firstSeenNew seen (items.map pyStrip),
         seen ++ firstSeenNew seen (items.map pyStrip)) := by
  intro items
  induction items with
  | nil => intro news seen; simp [firstSeenNew]
  | cons x rest ih =>
    intro news seen
    rw [List.foldl_cons]
    by_cases hc : pyStrip x ≠ "" ∧ pyStrip x ∉ seen
    · have hstep : merge_step (news, seen) x
          = (news ++ [pyStrip x], seen ++ [pyStrip x]) := by
        simp only [merge_step]
        rw [if_pos hc]
      rw [hstep, ih, List.map_cons]
      simp only [firstSeenNew]
      rw [if_pos hc]
      simp [List.append_assoc]
    · have hstep : merge_step (news, seen) x = (news, seen) := by
        simp only [merge_step]
        rw [if_neg hc]
      rw [hstep, ih, List.map_cons]
      simp only [firstSeenNew]
      rw [if_neg hc]

/-- New entries are nonempty, previously unseen members of the input. -/
theorem firstSeenNew_mem : ∀ (xs seen : List String) (y : String),
    y ∈ firstSeenNew seen xs → y ∉ seen ∧ y ≠ "" ∧ y ∈ xs := by
  intro xs
  induction xs with
  | nil => intro seen y h; simp [firstSeenNew] at h
  | cons x rest ih =>
    intro seen y h
    simp only [firstSeenNew] at h
    by_cases hc : x ≠ "" ∧ x ∉ seen
    · rw [if_pos hc] at h
      rcases List.mem_cons.1 h with rfl | h
      · exact ⟨hc.2, hc.1, List.mem_cons_self _ _⟩
      · obtain ⟨h1, h2, h3⟩ := ih (seen ++ [x]) y h
        exact ⟨fun hs => h1 (List.mem_append_left _ hs), h2,
          List.mem_cons_of_mem _ h3⟩
    · rw [if_neg hc] at h
      obtain ⟨h1, h2, h3⟩ := ih seen y h
      exact ⟨h1, h2, List.mem_cons_of_mem _ h3⟩

/-- New entries contain no duplicates. -/
theorem firstSeenNew_nodup : ∀ (xs seen : List String),
    (firstSeenNew seen xs).Nodup := by
  intro xs
  induction xs with
  | nil => intro seen; simp [firstSeenNew]
  | cons x rest ih =>
    intro seen
    simp only [firstSeenNew]
    by_cases hc : x ≠ "" ∧ x ∉ seen
    · rw [if_pos hc]
      refine List.Nodup.cons ?_ (ih (seen ++ [x]))
      intro hmem
      have := (firstSeenNew_mem rest (seen ++ [x]) x hmem).1
      exact this (List.mem_append_right _ (List.mem_singleton.2 rfl))
    · rw [if_neg hc]
      exact ih seen

/-- Every nonempty input entry ends up either already seen or newly added. -/
theorem firstSeenNew_complete : ∀ (xs seen : List String) (x : String),
    x ∈ xs → x ≠ "" → x ∈ seen ∨ x ∈ firstSeenNew seen xs := by
  intro xs
  induction xs with
  | nil => intro seen x h; simp at h
  | cons y rest ih =>
    intro seen x hx hne
    simp only [firstSeenNew]
    by_cases hc : y ≠ "" ∧ y ∉ seen
    · rw [if_pos hc]
      rcases List.mem_cons.1 hx with rfl | hx
      · exact Or.inr (List.mem_cons_self _ _)
      · rcases ih (seen ++ [y]) x hx hne with h | h
        · rcases List.mem_append.1 h with h | h
          · exact Or.inl h
          · exact Or.inr (by rw [List.mem_singleton.1 h]; exact List.mem_cons_self _ _)
        · exact Or.inr (List.mem_cons_of_mem _ h)
    · rw [if_neg hc]
      rcases List.mem_cons.1 hx with rfl | hx
      · rcases not_and_or.1 hc with h | h
        · exact absurd hne h
        · exact Or.inl (not_not.1 h)
      · exact ih seen x hx hne

/-- If every entry is empty or already seen, nothing is appended. -/
theorem firstSeenNew_nil_of_seen : ∀ (xs seen : List String),
    (∀ x ∈ xs, x = "" ∨ x ∈ seen) → firstSeenNew seen xs = [] := by
  intro xs
  induction xs with
  | nil => intro seen _; rfl
  | cons y rest ih =>
    intro seen h
    simp only [firstSeenNew]
    rw [if_neg]
    · exact ih seen (fun x hx => h x (List.mem_cons_of_mem _ hx))
    · rcases h y (List.mem_cons_self _ _) with h | h
      · exact fun hc => hc.1 h
      · exact fun hc => hc.2 h

/-- A map that fixes every element of a list is the identity on it. -/
theorem map_fix_eq_self (l : List String) (f : String → String)
    (h : ∀ a ∈ l, f a = a) : l.map f = l := by
  conv_rhs => rw [← List.map_id l]
  exact List.map_congr_left h

/-- The merged file content: existing lines followed by the first-seen new
entries relative to the file's stripped nonempty line set. -/
theorem write_or_merge_content (file : Option (List String)) (items : List String) :
    (write_or_merge_worklist file items).getD []
      = (file.getD [])
        ++ firstSeenNew (((file.getD []).map pyStrip).filter (fun l => l ≠ ""))
            (items.map pyStrip) := by
  simp only [write_or_merge_worklist, merge_fold_eq, List.nil_append]
  split
  · next h => rw [h]; simp
  · rfl

/-- New entries are themselves stripped and nonempty, so they survive a
re-read of the merged file verbatim. -/
theorem firstSeenNew_stripped (items seen : List String) :
    ∀ a ∈ firstSeenNew seen (items.map pyStrip), pyStrip a = a := by
  intro a ha
  obtain ⟨_, _, hmem⟩ := firstSeenNew_mem (items.map pyStrip) seen a ha
  obtain ⟨x, _, rfl⟩ := List.mem_map.1 hmem
  exact pyStrip_idem x

/-- When no new entries arise, the merge leaves the file untouched. -/
theorem write_or_merge_noop (file : Option (List String)) (items : List String)
    (h : firstSeenNew (((file.getD []).map pyStrip).filter (fun l => l ≠ ""))
        (items.map pyStrip) = []) :
    write_or_merge_worklist file items = file := by
  simp only [write_or_merge_worklist, merge_fold_eq, List.nil_append, h]
  simp

/-- C8 (amended).  For every worklist file whose lines are stripped, nonempty
and pairwise distinct — the shape `_write_or_merge_worklist_txt` itself
produces — merging a list of items (i) appends exactly the previously unseen
nonempty stripped items, each once, in first-seen order, preserving every
existing line, (ii) leaves each such item appearing exactly once in the
resulting file, and (iii) a second call with the same items changes nothing,
so calling twice equals calling once. -/
theorem c8_amended_worklist_merge (file : Option (List String))
    (items : List String)
    (hstrip : ∀ l ∈ file.getD [], pyStrip l = l)
    (hnz : ∀ l ∈ file.getD [], l ≠ "") :
    (write_or_merge_worklist (write_or_merge_worklist file items) items
        = write_or_merge_worklist file items)
    ∧ ((write_or_merge_worklist file items).getD []
        = (file.getD []) ++ firstSeenNew (file.getD []) (items.map pyStrip))
    ∧ ((file.getD []).Nodup → ∀ x ∈ items, pyStrip x ≠ "" →
        ((write_or_merge_worklist file items).getD []).count (pyStrip x) = 1) := by
  have hE : ((file.getD []).map pyStrip).filter (fun l => l ≠ "")
      = file.getD [] := by
    rw [map_fix_eq_self _ _ hstrip]
    exact List.filter_eq_self.mpr (fun a ha => by simpa using hnz a ha)
  have hcontent := write_or_merge_content file items
  rw [hE] at hcontent
  have happ_stripped := firstSeenNew_stripped items (file.getD [])
  have happ_nz : ∀ a ∈ firstSeenNew (file.getD []) (items.map pyStrip),
      a ≠ "" := fun a ha =>
    (firstSeenNew_mem (items.map pyStrip) (file.getD []) a ha).2.1
  have happ_new : ∀ a ∈ firstSeenNew (file.getD []) (items.map pyStrip),
      a ∉ file.getD [] := fun a ha =>
    (firstSeenNew_mem (items.map pyStrip) (file.getD []) a ha).1
  have hE2 : (((write_or_merge_worklist file items).getD []).map pyStrip).filter
        (fun l => l ≠ "")
      = (file.getD []) ++ firstSeenNew (file.getD []) (items.map pyStrip) := by
    rw [hcontent, List.map_append, List.filter_append, hE,
      map_fix_eq_self _ _ happ_stripped,
      List.filter_eq_self.mpr (fun a ha => by simpa using happ_nz a ha)]
  refine ⟨?_, hcontent, ?_⟩
  · have hnews2 : firstSeenNew
        ((((write_or_merge_worklist file items).getD []).map pyStrip).filter
          (fun l => l ≠ ""))
        (items.map pyStrip) = [] := by
      rw [hE2]
      apply firstSeenNew_nil_of_seen
      intro y hy
      obtain ⟨x, _, rfl⟩ := List.mem_map.1 hy
      by_cases hyne : pyStrip x = ""
      · exact Or.inl hyne
      · rcases firstSeenNew_complete (items.map pyStrip) (file.getD [])
          (pyStrip x) hy hyne with h | h
        · exact Or.inr (List.mem_append_left _ h)
        · exact Or.inr (List.mem_append_right _ h)
    exact write_or_merge_noop _ items hnews2
  · intro hnodup x hx hne
    rw [hcontent, List.count_append]
    by_cases hm : pyStrip x ∈ file.getD []
    · have h1 : (file.getD []).count (pyStrip x) = 1 :=
        List.count_eq_one_of_mem hnodup hm
      have h0 : (firstSeenNew (file.getD []) (items.map pyStrip)).count
          (pyStrip x) = 0 :=
        List.count_eq_zero.mpr (fun hc => happ_new _ hc hm)
      omega
    · have h0 : (file.getD []).count (pyStrip x) = 0 :=
        List.count_eq_zero.mpr hm
      have hmem : pyStrip x ∈ firstSeenNew (file.getD []) (items.map pyStrip) := by
        rcases firstSeenNew_complete (items.map pyStrip) (file.getD [])
          (pyStrip x) (List.mem_map_of_mem pyStrip hx) hne with h | h
        · exact absurd h hm
        · exact h
      have h1 : (firstSeenNew (file.getD []) (items.map pyStrip)).count
          (pyStrip x) = 1 :=
        List.count_eq_one_of_mem (firstSeenNew_nodup (items.map pyStrip) _) hmem
      omega

/-- C8.  Counterexample: when the pre-existing worklist file already contains
the line `a` twice, merging the items `[a]` twice appends nothing (existing
entries are preserved verbatim and `a` is already in the seen set), so the
resulting file contains the item `a` twice — not exactly once as the claim
states for every existing file. -/
theorem c8_duplicate_counterexample :
    write_or_merge_worklist
        (write_or_merge_worklist (some ["a", "a"]) ["a"]) ["a"]
      = some ["a", "a"]
    ∧ (["a", "a"].count "a") = 2 := by
  decide

theorem c8_amended_worklist_merge_witness :
    (write_or_merge_worklist
        (write_or_merge_worklist (some ["a"]) ["b", "a"]) ["b", "a"]
      = write_or_merge_worklist (some ["a"]) ["b", "a"])
    ∧ ((write_or_merge_worklist (some ["a"]) ["b", "a"]).getD []
      = ["a"] ++ firstSeenNew ["a"] (["b", "a"].map pyStrip))
    ∧ ((write_or_merge_worklist (some ["a"]) ["b", "a"]).getD []).count
        (pyStrip "b") = 1 := by
  have h := c8_amended_worklist_merge (some ["a"]) ["b", "a"]
    (by decide) (by decide)
  exact ⟨h.1, h.2.1, h.2.2 (by decide) "b" (by decide) (by decide)⟩

/-- Lookup across an append: the left map takes precedence. -/
theorem aget_append {κ α : Type} [DecidableEq κ] (m₁ m₂ : List (κ × α)) (k : κ) :
    aget (m₁ ++ m₂) k
      = match aget m₁ k with
        | some v => some v
        | none => aget m₂ k := by
  induction m₁ with
  | nil => simp [aget]
  | cons hd tl ih =>
    by_cases h : hd.1 = k
    · simp [aget, h]
    · simp [aget, h, ih]

/-- A key is absent exactly when it is not among the stored keys. -/
theorem aget_eq_none_iff {κ α : Type} [DecidableEq κ] (m : List (κ × α)) (k : κ) :
    aget m k = none ↔ k ∉ m.map Prod.fst := by
  induction m with
  | nil => simp [aget]
  | cons hd tl ih =>
    by_cases h : hd.1 = k
    · simp [aget, h]
    · simp [aget, h, ih, Ne.symm h]

/-- A successful lookup yields a stored pair. -/
theorem aget_mem {κ α : Type} [DecidableEq κ] (m : List (κ × α)) (k : κ) (v : α)
    (h : aget m k = some v) : (k, v) ∈ m := by
  induction m with
  | nil => simp [aget] at h
  | cons hd tl ih =>
    by_cases hk : hd.1 = k
    · simp only [aget, if_pos hk] at h
      cases h
      have he : (k, hd.2) = hd := by rw [← hk]
      rw [he]
      exact List.mem_cons_self _ _
    · simp only [aget, if_neg hk] at h
      exact List.mem_cons_of_mem _ (ih h)

/-- With pairwise-distinct keys, a stored pair is what lookup returns. -/
theorem aget_of_mem_nodup {κ α : Type} [DecidableEq κ] (m : List (κ × α))
    (hnd : (m.map Prod.fst).Nodup) (k : κ) (v : α) (h : (k, v) ∈ m) :
    aget m k = some v := by
  induction m with
  | nil => simp at h
  | cons hd tl ih =>
    rcases List.mem_cons.1 h with rfl | h
    · simp [aget]
    · have hk : hd.1 ≠ k := by
        intro he
        have hkin : k ∈ tl.map Prod.fst := List.mem_map.2 ⟨(k, v), h, rfl⟩
        rw [List.map_cons, List.nodup_cons, he] at hnd
        exact hnd.1 hkin
      simp only [aget, if_neg hk]
      exact ih (by rw [List.map_cons, List.nodup_cons] at hnd; exact hnd.2) h

/-- Updating an existing key does not change the key list. -/
theorem aset_keys_of_isSome {κ α : Type} [DecidableEq κ] (m : List (κ × α))
    (k : κ) (v : α) (h : (aget m k).isSome) :
    (aset m k v).map Prod.fst = m.map Prod.fst := by
  induction m with
  | nil => simp [aget] at h
  | cons hd tl ih =>
    by_cases hk : hd.1 = k
    · simp [aset, hk]
    · simp only [aget, if_neg hk] at h
      simp [aset, hk, ih h]

theorem rank_orInfo (s : String) :
    SEVERITY_ORDER (orInfoStr (some s)) = SEVERITY_ORDER s := by
  by_cases h : s = ""
  · subst h; decide
  · simp [orInfoStr, h]

theorem recordsFor_append_miss (done : List NucleiRecord) (r : NucleiRecord)
    (k : String × String) (h : ¬nuclei_key r = some k) :
    nucleiRecordsFor (done ++ [r]) k = nucleiRecordsFor done k := by
  simp [nucleiRecordsFor, List.filter_append, h]

theorem recordsFor_append_hit (done : List NucleiRecord) (r : NucleiRecord)
    (k : String × String) (h : nuclei_key r = some k) :
    nucleiRecordsFor (done ++ [r]) k = nucleiRecordsFor done k ++ [r] := by
  simp [nucleiRecordsFor, List.filter_append, h]

theorem maxRank_append_miss (done : List NucleiRecord) (r : NucleiRecord)
    (k : String × String) (h : ¬nuclei_key r = some k) :
    nucleiMaxRank (done ++ [r]) k = nucleiMaxRank done k := by
  simp [nucleiMaxRank, recordsFor_append_miss done r k h]

theorem maxRank_append_hit (done : List NucleiRecord) (r : NucleiRecord)
    (k : String × String) (h : nuclei_key r = some k) :
    nucleiMaxRank (done ++ [r]) k
      = max (nucleiMaxRank done k)
          (SEVERITY_ORDER (r.info_severity.getD "info")) := by
  simp [nucleiMaxRank, recordsFor_append_hit done r k h, List.foldl_append]

theorem parseInv_nil : parseInv [] [] := by
  refine ⟨List.nodup_nil, fun k => ⟨fun _ => rfl, fun f hf => ?_⟩⟩
  simp [aget] at hf

theorem nuclei_update_occ (t s : String) (f : Finding) :
    (nuclei_update t s f).occurrences = f.occurrences + 1 := by
  simp only [nuclei_update]
  split <;> rfl

theorem nuclei_update_key (t s : String) (f : Finding) :
    nucleiKeyOf (nuclei_update t s f) = nucleiKeyOf f := by
  simp only [nuclei_update, nucleiKeyOf]
  split <;> rfl

theorem nuclei_update_rank (t s : String) (f : Finding) :
    SEVERITY_ORDER (orInfoStr (nuclei_update t s f).severity)
      = max (SEVERITY_ORDER (orInfoStr f.severity)) (SEVERITY_ORDER s) := by
  simp only [nuclei_update]
  split
  · next hgt =>
    show SEVERITY_ORDER (orInfoStr (some s)) = _
    rw [rank_orInfo]
    omega
  · next hle =>
    show SEVERITY_ORDER (orInfoStr f.severity) = _
    omega

/-- One parser-loop iteration preserves the de-duplication invariant. -/
theorem parseInv_step (rawPath : String)
    (m : List ((String × String) × Finding)) (done : List NucleiRecord)
    (r : NucleiRecord) (h : parseInv m done) :
    parseInv (parse_nuclei_step rawPath m r) (done ++ [r]) := by
  obtain ⟨hnd, hinv⟩ := h
  rcases hkey : nuclei_key r with _ | k
  · simp only [parse_nuclei_step, hkey]
    refine ⟨hnd, fun k' => ⟨?_, ?_⟩⟩
    · intro hnone
      rw [recordsFor_append_miss done r k' (by rw [hkey]; exact fun hc => Option.noConfusion hc)]
      exact (hinv k').1 hnone
    · intro f hf
      rw [recordsFor_append_miss done r k' (by rw [hkey]; exact fun hc => Option.noConfusion hc),
        maxRank_append_miss done r k' (by rw [hkey]; exact fun hc => Option.noConfusion hc)]
      exact (hinv k').2 f hf
  · rcases hget : aget m k with _ | f₀
    · simp only [parse_nuclei_step, hkey, hget]
      constructor
      · rw [List.map_append]
        refine hnd.append (List.nodup_singleton k) ?_
        intro a ha hb
        simp only [List.map_cons, List.map_nil, List.mem_singleton] at hb
        subst hb
        exact (aget_eq_none_iff m a).1 hget ha
      · intro k'
        by_cases hkk : k' = k
        · subst hkk
          have hsome : aget (m ++ [(k', nuclei_new rawPath
              (r.info_name.getD "Nuclei Finding")
              (r.info_severity.getD "info") k')]) k'
              = some (nuclei_new rawPath (r.info_name.getD "Nuclei Finding")
                  (r.info_severity.getD "info") k') := by
            rw [aget_append, hget]
            simp [aget]
          refine ⟨fun hnone => ?_, fun f hf => ?_⟩
          · rw [hsome] at hnone
            exact Option.noConfusion hnone
          · rw [hsome] at hf
            cases hf
            refine ⟨?_, ?_, ?_⟩
            · simp [nucleiKeyOf, nuclei_new]
            · rw [recordsFor_append_hit done r k' hkey, (hinv k').1 hget]
              rfl
            · rw [maxRank_append_hit done r k' hkey]
              have h0 : nucleiMaxRank done k' = 0 := by
                rw [nucleiMaxRank, (hinv k').1 hget]
                rfl
              rw [h0]
              show SEVERITY_ORDER (orInfoStr (some (r.info_severity.getD "info"))) = _
              rw [rank_orInfo]
              omega
        · have hsame : aget (m ++ [(k, nuclei_new rawPath
              (r.info_name.getD "Nuclei Finding")
              (r.info_severity.getD "info") k)]) k' = aget m k' := by
            rw [aget_append]
            rcases hg : aget m k' with _ | v
            · simp only [aget]
              exact if_neg (fun hc => hkk hc.symm)
            · rfl
          have hmiss : ¬nuclei_key r = some k' := by
            rw [hkey]
            exact fun hc => hkk (Option.some.inj hc).symm
          refine ⟨fun hnone => ?_, fun f hf => ?_⟩
          · rw [hsame] at hnone
            rw [recordsFor_append_miss done r k' hmiss]
            exact (hinv k').1 hnone
          · rw [hsame] at hf
            rw [recordsFor_append_miss done r k' hmiss,
              maxRank_append_miss done r k' hmiss]
            exact (hinv k').2 f hf
    · simp only [parse_nuclei_step, hkey, hget]
      constructor
      · rw [aset_keys_of_isSome m k _ (by rw [hget]; rfl)]
        exact hnd
      · intro k'
        by_cases hkk : k' = k
        · subst hkk
          have hsome := aget_aset_self m k'
            (nuclei_update (r.info_name.getD "Nuclei Finding")
              (r.info_severity.getD "info") f₀)
          refine ⟨fun hnone => ?_, fun f hf => ?_⟩
          · rw [hsome] at hnone
            exact Option.noConfusion hnone
          · rw [hsome] at hf
            cases hf
            obtain ⟨hk0, hocc0, hrk0⟩ := (hinv k').2 f₀ hget
            refine ⟨?_, ?_, ?_⟩
            · rw [nuclei_update_key]
              exact hk0
            · rw [nuclei_update_occ, recordsFor_append_hit done r k' hkey,
                hocc0, List.length_append]
              rfl
            · rw [nuclei_update_rank, maxRank_append_hit done r k' hkey, hrk0]
        · have hsame := aget_aset_ne m k k'
            (nuclei_update (r.info_name.getD "Nuclei Finding")
              (r.info_severity.getD "info") f₀) hkk
          have hmiss : ¬nuclei_key r = some k' := by
            rw [hkey]
            exact fun hc => hkk (Option.some.inj hc).symm
          refine ⟨fun hnone => ?_, fun f hf => ?_⟩
          · rw [hsame] at hnone
            rw [recordsFor_append_miss done r k' hmiss]
            exact (hinv k').1 hnone
          · rw [hsame] at hf
            rw [recordsFor_append_miss done r k' hmiss,
              maxRank_append_miss done r k' hmiss]
            exact (hinv k').2 f hf

/-- The parser fold preserves the invariant over any processed prefix. -/
theorem parseInv_fold (rawPath : String) :
    ∀ (records : List NucleiRecord) (m : List ((String × String) × Finding))
      (done : List NucleiRecord), parseInv m done →
      parseInv (records.foldl (parse_nuclei_step rawPath) m) (done ++ records) := by
  intro records
  induction records with
  | nil => intro m done h; simpa using h
  | cons r rest ih =>
    intro m done h
    rw [List.foldl_cons]
    have h2 := ih (parse_nuclei_step rawPath m r) (done ++ [r])
      (parseInv_step rawPath m done r h)
    simpa [List.append_assoc] using h2

/-- The full parser run satisfies the de-duplication invariant. -/
theorem parseInv_run (rawPath : String) (records : List NucleiRecord) :
    parseInv (records.foldl (parse_nuclei_step rawPath) []) records := by
  have h := parseInv_fold rawPath records [] [] parseInv_nil
  simpa using h

/-- C9.  Severity retention in nuclei parsing: two records for the same
`(asset, template-id)` pair with severities `low` then `critical` yield one
Finding with severity `critical` and `occurrences = 2`; in general the
parser merges duplicates by `(asset, template_id)` — the produced keys are
pairwise distinct and every valid record's key is represented — with
`occurrences` counting the records of that key and the retained severity
sitting at the highest rank observed for it in the order
info < low < medium < high < critical (unknown severities rank 0). -/
theorem c9_severity_retention (rawPath : String) :
    (parse_nuclei rawPath
        [{ host := some "h", template_id := some "t", info_name := some "N1",
           info_severity := some "low" },
         { host := some "h", template_id := some "t", info_name := some "N2",
           info_severity := some "critical" }]
      = [{ asset := "h", title := "N2", tool := "nuclei", kind := "finding",
           severity := some "critical", template_id := some "t",
           occurrences := 2, evidence_path := rawPath }])
    ∧ ∀ records : List NucleiRecord,
        ((parse_nuclei rawPath records).map nucleiKeyOf).Nodup
        ∧ (∀ f ∈ parse_nuclei rawPath records,
            f.occurrences = (nucleiRecordsFor records (nucleiKeyOf f)).length
            ∧ SEVERITY_ORDER (orInfoStr f.severity)
                = nucleiMaxRank records (nucleiKeyOf f))
        ∧ (∀ r ∈ records, ∀ k, nuclei_key r = some k →
            k ∈ (parse_nuclei rawPath records).map nucleiKeyOf) := by
  constructor
  · rfl
  · intro records
    obtain ⟨hnd, hinv⟩ := parseInv_run rawPath records
    have hkeys : (parse_nuclei rawPath records).map nucleiKeyOf
        = (records.foldl (parse_nuclei_step rawPath) []).map Prod.fst := by
      show ((records.foldl (parse_nuclei_step rawPath) []).map Prod.snd).map
          nucleiKeyOf = _
      rw [List.map_map]
      apply List.map_congr_left
      intro e he
      have hget : aget (records.foldl (parse_nuclei_step rawPath) []) e.1
          = some e.2 :=
        aget_of_mem_nodup _ hnd e.1 e.2 he
      exact ((hinv e.1).2 e.2 hget).1
    refine ⟨?_, ?_, ?_⟩
    · rw [hkeys]
      exact hnd
    · intro f hf
      obtain ⟨e, he, rfl⟩ := List.mem_map.1 hf
      have hget : aget (records.foldl (parse_nuclei_step rawPath) []) e.1
          = some e.2 :=
        aget_of_mem_nodup _ hnd e.1 e.2 he
      obtain ⟨hk, hocc, hrk⟩ := (hinv e.1).2 e.2 hget
      rw [hk]
      exact ⟨hocc, hrk⟩
    · intro r hr k hkey
      have hmem : r ∈ nucleiRecordsFor records k :=
        List.mem_filter.2 ⟨hr, by simp [hkey]⟩
      rcases hget : aget (records.foldl (parse_nuclei_step rawPath) []) k
        with _ | f
      · rw [(hinv k).1 hget] at hmem
        exact absurd hmem (List.not_mem_nil r)
      · rw [hkeys]
        exact List.mem_map.2 ⟨(k, f), aget_mem _ k f hget, rfl⟩

theorem c9_severity_retention_witness :
    parse_nuclei "raw/nuclei/nuclei.jsonl"
        [{ host := some "h", template_id := some "t", info_name := some "N1",
           info_severity := some "low" },
         { host := some "h", template_id := some "t", info_name := some "N2",
           info_severity := some "critical" }]
      = [{ asset := "h", title := "N2", tool := "nuclei", kind := "finding",
           severity := some "critical", template_id := some "t",
           occurrences := 2, evidence_path := "raw/nuclei/nuclei.jsonl" }] :=
  (c9_severity_retention "raw/nuclei/nuclei.jsonl").1
